import Mathlib

/-!
Verification of the instagram-hashtag-crawler collection engine.

This file gives a shallow embedding of the repository's code:
* `src/instagram_hashtag_crawler/crawler.py` — the refactored collection
  engine (`_collect_posts`, `crawl`, `crawl_multi_and`, `_process_post`,
  `_get_profile`);
* the legacy `crawler.py` at the repository root (`get_posts` pagination);
* `src/instagram_hashtag_crawler/export.py` (`_write_posts`).

Network effects are modelled by explicit oracles: profile fetching is a
function from owner id and attempt number to a fetch outcome, and the legacy
feed API is a script (list) of responses consumed one call at a time.
Sleeps are logged as lists of the waited durations.  File writes are
modelled by returning the file name and content instead of performing I/O;
logging-only code (logger calls, the media-count lookup) is omitted.
-/

namespace InstagramCrawler

/-- Owner profile data, per the instaloader `Profile` fields that
`_process_post` reads. -/
structure Profile where
  username : String
  fullName : String
  profilePicUrl : String
  mediacount : Nat
  followers : Nat
  followees : Nat
deriving DecidableEq

/-- A raw feed item, per the instaloader `Post` fields read by
`_collect_posts` and `_process_post`.  `captionHashtags` is the list of
lowercase caption hashtags without `#` (instaloader's `caption_hashtags`);
`dateUtc` is the UTC timestamp as an integer. -/
structure Post where
  shortcode : String
  ownerId : Nat
  typename : String
  captionHashtags : List String
  dateUtc : Int
  url : String
  likes : Nat
  comments : Nat
  caption : Option String
deriving DecidableEq

/-- The dict built by `_process_post` for each collected post. -/
structure ProcessedPost where
  shortcode : String
  userId : Nat
  username : String
  fullName : String
  profilePicUrl : String
  mediaCount : Nat
  followerCount : Nat
  followingCount : Nat
  date : Int
  picUrl : String
  likeCount : Nat
  commentCount : Nat
  caption : String
  tags : List String
deriving DecidableEq

/-- Outcome of one attempt to fetch `post.owner_profile`:
success, `instaloader.ConnectionException` (rate limiting), or
`instaloader.QueryReturnedNotFoundException`. -/
inductive FetchResult where
  | ok (p : Profile)
  | rateLimited
  | notFound
deriving DecidableEq

/-- A profile-fetch oracle: outcome per (owner id, attempt number). -/
abbrev Fetcher := Nat → Nat → FetchResult

/-- `CrawlConfig` from crawler.py (the `output_dir : Path` is a string). -/
structure CrawlConfig where
  outputDir : String
  minPosts : Nat := 1
  maxPosts : Nat := 100
  minTimestamp : Option Int := none
deriving DecidableEq

/-- The `profile_cache` dict, keyed by owner id. -/
abbrev Cache := List (Nat × Profile)

/-- Dict lookup: `owner_id in cache` / `cache[owner_id]`. -/
def cacheLookup : Cache → Nat → Option Profile
  | [], _ => none
  | (k, p) :: rest, o => if k = o then some p else cacheLookup rest o

/-- The retry loop of `_get_profile` (crawler.py lines 229-250) for a fixed
owner: `for attempt in range(max_retries)`, trying `post.owner_profile` each
time; the loop is driven by the list of attempt numbers.  Returns the
fetched profile (`none` when an exception escaped the loop) together with
the list of backoff sleeps performed (`wait = 5 * (attempt + 1)`, only when
`attempt < max_retries - 1`).  The courtesy `sleep(0.05)` before each
attempt is not logged.  A `notFound` outcome is not caught by the loop's
`except instaloader.ConnectionException` and propagates immediately;
reaching the end of the loop is the unreachable `RuntimeError`. -/
def getProfileGo (fetch : Nat → FetchResult) (maxRetries : Nat) :
    List Nat → Option Profile × List Nat
  | [] => (none, [])
  | attempt :: rest =>
    match fetch attempt with
    | .ok p => (some p, [])
    | .rateLimited =>
      if attempt < maxRetries - 1 then
        let r := getProfileGo fetch maxRetries rest
        (r.1, 5 * (attempt + 1) :: r.2)
      else (none, [])
    | .notFound => (none, [])

/-- The retry loop of `_get_profile` with `max_retries = 3`:
attempts `range(3)`. -/
def getProfileRetry (fetch : Nat → FetchResult) : Option Profile × List Nat :=
  getProfileGo fetch 3 (List.range 3)

/-- `_get_profile`: cache hit returns the memoized profile with no fetch;
on a miss the retry loop runs and a success is stored in the cache. -/
def getProfile (fetch : Fetcher) (cache : Cache) (ownerId : Nat) :
    Option Profile × Cache × List Nat :=
  match cacheLookup cache ownerId with
  | some p => (some p, cache, [])
  | none =>
    match getProfileRetry (fetch ownerId) with
    | (some p, ws) => (some p, (ownerId, p) :: cache, ws)
    | (none, ws) => (none, cache, ws)

/-- The record dict literal of `_process_post` (crawler.py lines 194-209). -/
def mkRecord (post : Post) (profile : Profile) : ProcessedPost where
  shortcode := post.shortcode
  userId := post.ownerId
  username := profile.username
  fullName := profile.fullName
  profilePicUrl := profile.profilePicUrl
  mediaCount := profile.mediacount
  followerCount := profile.followers
  followingCount := profile.followees
  date := post.dateUtc
  picUrl := post.url
  likeCount := post.likes
  commentCount := post.comments
  caption := post.caption.getD ""
  tags := post.captionHashtags.map (fun t => "#" ++ t)

/-- `_process_post`: enrich a post; both
`QueryReturnedNotFoundException` and `ConnectionException` (including the
one re-raised by `_get_profile` after exhausting retries) yield `None`. -/
def processPost (fetch : Fetcher) (post : Post) (cache : Cache) :
    Option ProcessedPost × Cache :=
  match getProfile fetch cache post.ownerId with
  | (some prof, cache', _) => (some (mkRecord post prof), cache')
  | (none, cache', _) => (none, cache')

/-- The time-cutoff test of `_collect_posts` lines 59-63.  Note that a
`datetime` is always truthy, so `config.min_timestamp and post.date_utc <
config.min_timestamp` breaks the loop whenever `min_timestamp` is set and
the post is older; the `continue` branch is unreachable. -/
def tooOld (cfg : CrawlConfig) (post : Post) : Bool :=
  match cfg.minTimestamp with
  | some ts => decide (post.dateUtc < ts)
  | none => false

/-- The AND-filter test of `_collect_posts` lines 77-81: with
`required_tags` given, skip the post unless
`required_tags <= frozenset(post.caption_hashtags)`. -/
def tagFail (required : Option (Finset String)) (post : Post) : Bool :=
  match required with
  | some T => !(decide (T ⊆ post.captionHashtags.toFinset))
  | none => false

/-- The `for post in hashtag_obj.get_posts_resumable()` loop of
`_collect_posts` (lines 54-87), with the feed given as a list.  State:
remaining feed, accumulated `posts`, `seen_shortcodes`, `profile_cache`,
and the `skipped` counter.  Checks in source order: capacity break, time
break, type filter, dedup, tag filter, enrichment. -/
def collectGo (fetch : Fetcher) (cfg : CrawlConfig)
    (required : Option (Finset String)) :
    List Post → List ProcessedPost → List String → Cache → Nat →
    List ProcessedPost × Cache × Nat
  | [], posts, _, cache, skipped => (posts, cache, skipped)
  | post :: rest, posts, seen, cache, skipped =>
    if cfg.maxPosts ≤ posts.length then (posts, cache, skipped)
    else if tooOld cfg post then (posts, cache, skipped)
    else if post.typename ≠ "GraphImage" then
      collectGo fetch cfg required rest posts seen cache (skipped + 1)
    else if post.shortcode ∈ seen then
      collectGo fetch cfg required rest posts seen cache skipped
    else
      let seen' := post.shortcode :: seen
      if tagFail required post then
        collectGo fetch cfg required rest posts seen' cache (skipped + 1)
      else
        let pc := processPost fetch post cache
        match pc.1 with
        | some rec => collectGo fetch cfg required rest (posts ++ [rec]) seen' pc.2 skipped
        | none => collectGo fetch cfg required rest posts seen' pc.2 skipped

/-- `_collect_posts`: run the loop from an empty accumulator and seen set.
The caller supplies the (possibly shared) profile cache, as in the source;
`crawl` passes a fresh one. -/
def collectPosts (fetch : Fetcher) (cfg : CrawlConfig)
    (required : Option (Finset String)) (feed : List Post) (cache : Cache) :
    List ProcessedPost × Cache × Nat :=
  collectGo fetch cfg required feed [] [] cache 0

/-- `crawl`: collect a single hashtag; below `min_posts` return `False`
and write nothing (modelled as `none`); otherwise save and return `True`
(modelled as `some (file name, saved posts)`). -/
def crawl (fetch : Fetcher) (feed : List Post) (hashtag : String)
    (cfg : CrawlConfig) : Option (String × List ProcessedPost) :=
  let posts := (collectPosts fetch cfg none feed []).1
  if posts.length < cfg.minPosts then none
  else some (cfg.outputDir ++ "/" ++ hashtag ++ ".json", posts)

/-- The `merged.setdefault(post["shortcode"], post)` loop of
`crawl_multi_and` lines 153-154: insertion-ordered dict keyed by shortcode,
first occurrence wins. -/
def mergePosts (merged : List ProcessedPost) (posts : List ProcessedPost) :
    List ProcessedPost :=
  posts.foldl
    (fun acc p => if ∃ q ∈ acc, q.shortcode = p.shortcode then acc else acc ++ [p])
    merged

/-- The `for hashtag in hashtags` loop of `crawl_multi_and` (lines
144-157): query each hashtag's feed with the shared profile cache, merge by
shortcode, and break once `len(merged) >= config.max_posts`. -/
def multiGo (fetch : Fetcher) (feeds : String → List Post)
    (required : Finset String) (cfg : CrawlConfig) :
    List String → List ProcessedPost → Cache → List ProcessedPost × Cache
  | [], merged, cache => (merged, cache)
  | h :: rest, merged, cache =>
    let r := collectPosts fetch cfg (some required) (feeds h) cache
    let merged' := mergePosts merged r.1
    if cfg.maxPosts ≤ merged'.length then (merged', r.2.1)
    else multiGo fetch feeds required cfg rest merged' r.2.1

/-- Python's `str.lower()`: lower-case each character.  (Defined via the
character list so that it evaluates by kernel reduction.) -/
def strLower (s : String) : String := ⟨s.data.map Char.toLower⟩

/-- Insert a string into a sorted list, keeping it sorted (stable). -/
def insertSorted (x : String) : List String → List String
  | [] => [x]
  | y :: ys => if x ≤ y then x :: y :: ys else y :: insertSorted x ys

/-- `sorted(...)` on a list of strings (stable insertion sort). -/
def sortStrings (l : List String) : List String := l.foldr insertSorted []

/-- The output file name `"_AND_".join(sorted(hashtags)) + ".json"`. -/
def andFilename (cfg : CrawlConfig) (hashtags : List String) : String :=
  cfg.outputDir ++ "/" ++
    String.intercalate "_AND_" (sortStrings hashtags) ++ ".json"

/-- `crawl_multi_and`: raise `ValueError` for fewer than 2 hashtags
(modelled as `.error`); otherwise build the lowercased required tag set,
run the per-hashtag loop, truncate the merged dict's values to
`max_posts`, and save iff at least `min_posts` were found. -/
def crawlMultiAnd (fetch : Fetcher) (feeds : String → List Post)
    (hashtags : List String) (cfg : CrawlConfig) :
    Except String (Option (String × List ProcessedPost)) :=
  if hashtags.length < 2 then
    .error "crawl_multi_and requires at least 2 hashtags"
  else
    let required := (hashtags.map strLower).toFinset
    let r := multiGo fetch feeds required cfg hashtags [] []
    let allPosts := r.1.take cfg.maxPosts
    if allPosts.length < cfg.minPosts then .ok none
    else .ok (some (andFilename cfg hashtags, allPosts))

/-- The set of shortcodes produced by an intersection search, the
observable compared by the order-independence property; `none` when the
call fails or reports insufficient results. -/
def multiShortcodes (fetch : Fetcher) (feeds : String → List Post)
    (hashtags : List String) (cfg : CrawlConfig) : Option (Finset String) :=
  match crawlMultiAnd fetch feeds hashtags cfg with
  | .ok (some (_, out)) => some (out.map (fun r => r.shortcode)).toFinset
  | _ => none

/-! ### Concrete fixtures used by witnesses and counterexamples -/

/-- A fixed profile returned by the always-successful fetch oracle. -/
def prof1 : Profile :=
  { username := "alice", fullName := "Alice A", profilePicUrl := "pic1"
    mediacount := 10, followers := 20, followees := 30 }

/-- A fetch oracle that always succeeds immediately. -/
def fetch0 : Fetcher := fun _ _ => .ok prof1

/-- A single-image post with shortcode `s1`. -/
def pImg1 : Post :=
  { shortcode := "s1", ownerId := 1, typename := "GraphImage"
    captionHashtags := ["a", "b"], dateUtc := 100, url := "u1"
    likes := 1, comments := 0, caption := some "c1" }

/-- A single-image post with shortcode `s2`. -/
def pImg2 : Post :=
  { shortcode := "s2", ownerId := 2, typename := "GraphImage"
    captionHashtags := ["a", "b"], dateUtc := 90, url := "u2"
    likes := 2, comments := 0, caption := some "c2" }

/-- A video post carrying the same shortcode `s1` as `pImg1` but different
engagement numbers. -/
def pVid1 : Post :=
  { shortcode := "s1", ownerId := 1, typename := "GraphVideo"
    captionHashtags := ["a", "b"], dateUtc := 100, url := "uv"
    likes := 7, comments := 3, caption := some "cv" }

/-- An old single-image post (timestamp below the cutoffs used in tests). -/
def pOld : Post :=
  { shortcode := "s9", ownerId := 9, typename := "GraphImage"
    captionHashtags := ["a", "b"], dateUtc := -5, url := "u9"
    likes := 9, comments := 9, caption := none }

/-! ### Step equations for the collection loop -/

theorem collectGo_nil (fetch : Fetcher) (cfg : CrawlConfig)
    (required : Option (Finset String)) (posts : List ProcessedPost)
    (seen : List String) (cache : Cache) (sk : Nat) :
    collectGo fetch cfg required [] posts seen cache sk = (posts, cache, sk) := rfl

theorem collectGo_cons (fetch : Fetcher) (cfg : CrawlConfig)
    (required : Option (Finset String)) (p : Post) (rest : List Post)
    (posts : List ProcessedPost) (seen : List String) (cache : Cache) (sk : Nat) :
    collectGo fetch cfg required (p :: rest) posts seen cache sk =
      if cfg.maxPosts ≤ posts.length then (posts, cache, sk)
      else if tooOld cfg p then (posts, cache, sk)
      else if p.typename ≠ "GraphImage" then
        collectGo fetch cfg required rest posts seen cache (sk + 1)
      else if p.shortcode ∈ seen then
        collectGo fetch cfg required rest posts seen cache sk
      else if tagFail required p then
        collectGo fetch cfg required rest posts (p.shortcode :: seen) cache (sk + 1)
      else
        match (processPost fetch p cache).1 with
        | some r =>
          collectGo fetch cfg required rest (posts ++ [r]) (p.shortcode :: seen)
            (processPost fetch p cache).2 sk
        | none =>
          collectGo fetch cfg required rest posts (p.shortcode :: seen)
            (processPost fetch p cache).2 sk := rfl

/-! ### Capacity: the accumulator never exceeds `max_posts` -/

theorem collectGo_length_le (fetch : Fetcher) (cfg : CrawlConfig)
    (required : Option (Finset String)) :
    ∀ (feed : List Post) (posts : List ProcessedPost) (seen : List String)
      (cache : Cache) (sk : Nat), posts.length ≤ cfg.maxPosts →
      (collectGo fetch cfg required feed posts seen cache sk).1.length ≤ cfg.maxPosts := by
  intro feed
  induction feed with
  | nil => intro posts seen cache sk h; simpa [collectGo_nil] using h
  | cons p rest ih =>
    intro posts seen cache sk h
    rw [collectGo_cons]
    by_cases hcap : cfg.maxPosts ≤ posts.length
    · simpa [hcap] using h
    · simp only [if_neg hcap]
      by_cases hold : tooOld cfg p
      · simpa [hold] using h
      · simp only [hold, if_false]
        by_cases htype : p.typename ≠ "GraphImage"
        · simpa [htype] using ih posts seen cache (sk + 1) h
        · simp only [if_neg htype]
          by_cases hseen : p.shortcode ∈ seen
          · simpa [hseen] using ih posts seen cache sk h
          · simp only [if_neg hseen]
            by_cases htag : tagFail required p
            · simpa [htag] using ih posts (p.shortcode :: seen) cache (sk + 1) h
            · simp only [htag, if_false]
              cases hpc : (processPost fetch p cache).1 with
              | some r =>
                have hlen : (posts ++ [r]).length ≤ cfg.maxPosts := by
                  have := Nat.lt_of_not_le hcap
                  simpa using this
                exact ih (posts ++ [r]) (p.shortcode :: seen)
                  (processPost fetch p cache).2 sk hlen
              | none =>
                exact ih posts (p.shortcode :: seen)
                  (processPost fetch p cache).2 sk h

theorem collectPosts_length_le (fetch : Fetcher) (cfg : CrawlConfig)
    (required : Option (Finset String)) (feed : List Post) (cache : Cache) :
    (collectPosts fetch cfg required feed cache).1.length ≤ cfg.maxPosts :=
  collectGo_length_le fetch cfg required feed [] [] cache 0 (Nat.zero_le _)

/-- Once the loop's outcome on `feed` has filled the capacity, appending
further feed items changes nothing: the loop breaks instead of consuming
them. -/
theorem collectGo_extend (fetch : Fetcher) (cfg : CrawlConfig)
    (required : Option (Finset String)) :
    ∀ (feed extra : List Post) (posts : List ProcessedPost) (seen : List String)
      (cache : Cache) (sk : Nat),
      cfg.maxPosts ≤ (collectGo fetch cfg required feed posts seen cache sk).1.length →
      collectGo fetch cfg required (feed ++ extra) posts seen cache sk =
        collectGo fetch cfg required feed posts seen cache sk := by
  intro feed
  induction feed with
  | nil =>
    intro extra posts seen cache sk h
    rw [collectGo_nil] at h
    rw [List.nil_append, collectGo_nil]
    cases extra with
    | nil => exact collectGo_nil ..
    | cons q qs => rw [collectGo_cons, if_pos h]
  | cons p rest ih =>
    intro extra posts seen cache sk h
    rw [List.cons_append, collectGo_cons, collectGo_cons]
    rw [collectGo_cons] at h
    by_cases hcap : cfg.maxPosts ≤ posts.length
    · simp [hcap]
    · simp only [if_neg hcap] at h ⊢
      by_cases hold : tooOld cfg p
      · simp [hold]
      · simp only [hold, if_false] at h ⊢
        by_cases htype : p.typename ≠ "GraphImage"
        · simp only [if_pos htype] at h ⊢
          exact ih extra posts seen cache (sk + 1) h
        · simp only [if_neg htype] at h ⊢
          by_cases hseen : p.shortcode ∈ seen
          · simp only [if_pos hseen] at h ⊢
            exact ih extra posts seen cache sk h
          · simp only [if_neg hseen] at h ⊢
            by_cases htag : tagFail required p
            · simp only [htag, if_true] at h ⊢
              exact ih extra posts (p.shortcode :: seen) cache (sk + 1) h
            · simp only [htag, if_false] at h ⊢
              cases hpc : (processPost fetch p cache).1 with
              | some r =>
                simp only [hpc] at h ⊢
                exact ih extra (posts ++ [r]) (p.shortcode :: seen)
                  (processPost fetch p cache).2 sk h
              | none =>
                simp only [hpc] at h ⊢
                exact ih extra posts (p.shortcode :: seen)
                  (processPost fetch p cache).2 sk h

theorem collectPosts_extend (fetch : Fetcher) (cfg : CrawlConfig)
    (required : Option (Finset String)) (feed extra : List Post) (cache : Cache) :
    cfg.maxPosts ≤ (collectPosts fetch cfg required feed cache).1.length →
    collectPosts fetch cfg required (feed ++ extra) cache =
      collectPosts fetch cfg required feed cache :=
  collectGo_extend fetch cfg required feed extra [] [] cache 0

/-! ### Step equations and capacity for the intersection loop -/

theorem multiGo_nil (fetch : Fetcher) (feeds : String → List Post)
    (required : Finset String) (cfg : CrawlConfig) (merged : List ProcessedPost)
    (cache : Cache) :
    multiGo fetch feeds required cfg [] merged cache = (merged, cache) := rfl

theorem multiGo_cons (fetch : Fetcher) (feeds : String → List Post)
    (required : Finset String) (cfg : CrawlConfig) (h : String)
    (rest : List String) (merged : List ProcessedPost) (cache : Cache) :
    multiGo fetch feeds required cfg (h :: rest) merged cache =
      if cfg.maxPosts ≤
          (mergePosts merged (collectPosts fetch cfg (some required) (feeds h) cache).1).length then
        (mergePosts merged (collectPosts fetch cfg (some required) (feeds h) cache).1,
          (collectPosts fetch cfg (some required) (feeds h) cache).2.1)
      else
        multiGo fetch feeds required cfg rest
          (mergePosts merged (collectPosts fetch cfg (some required) (feeds h) cache).1)
          (collectPosts fetch cfg (some required) (feeds h) cache).2.1 := rfl

/-- Once the merged accumulator has reached capacity the per-hashtag loop
breaks: appending further hashtags issues no further feed queries and
changes nothing.  The hypothesis `merged.length < max_posts` says the loop
was entered below capacity, which holds at the top-level call. -/
theorem multiGo_extend (fetch : Fetcher) (feeds : String → List Post)
    (required : Finset String) (cfg : CrawlConfig) :
    ∀ (hs hs' : List String) (merged : List ProcessedPost) (cache : Cache),
      merged.length < cfg.maxPosts →
      cfg.maxPosts ≤ (multiGo fetch feeds required cfg hs merged cache).1.length →
      multiGo fetch feeds required cfg (hs ++ hs') merged cache =
        multiGo fetch feeds required cfg hs merged cache := by
  intro hs
  induction hs with
  | nil =>
    intro hs' merged cache hlt hge
    rw [multiGo_nil] at hge
    exact absurd hge (Nat.not_le_of_lt hlt)
  | cons h rest ih =>
    intro hs' merged cache hlt hge
    rw [List.cons_append, multiGo_cons, multiGo_cons]
    rw [multiGo_cons] at hge
    by_cases hbrk : cfg.maxPosts ≤
        (mergePosts merged (collectPosts fetch cfg (some required) (feeds h) cache).1).length
    · simp [hbrk]
    · simp only [if_neg hbrk] at hge ⊢
      exact ih hs' _ _ (Nat.lt_of_not_le hbrk) hge

/-- A successful intersection search returns at most `max_posts` records
(the merged dict's values are truncated). -/
theorem crawlMultiAnd_ok_length (fetch : Fetcher) (feeds : String → List Post)
    (hashtags : List String) (cfg : CrawlConfig) (fn : String)
    (out : List ProcessedPost) :
    crawlMultiAnd fetch feeds hashtags cfg = .ok (some (fn, out)) →
    out.length ≤ cfg.maxPosts := by
  intro h
  unfold crawlMultiAnd at h
  by_cases h2 : hashtags.length < 2
  · simp [h2] at h
  · simp only [if_neg h2] at h
    split at h
    · exact absurd h (by simp)
    · have hout : out =
          (multiGo fetch feeds ((hashtags.map strLower).toFinset) cfg
            hashtags [] []).1.take cfg.maxPosts := by
        have := (Except.ok.inj h)
        exact (congrArg Prod.snd (Option.some.inj this)).symm
      rw [hout]
      exact List.length_take_le ..

/-- A configuration with capacity 1, used by witnesses. -/
def cfg1 : CrawlConfig := { outputDir := "out", minPosts := 1, maxPosts := 1 }

/-- A feed map assigning every hashtag the one-image feed `[pImg1]`. -/
def feeds1 : String → List Post := fun _ => [pImg1]

/-- The required tag set `{"a", "b"}`, matched by the fixture posts. -/
def req1 : Finset String := {"a", "b"}

/-- C1: for every feed and configuration a collection call returns at most
`max_posts` records, and once the accumulator holds `max_posts` records the
pagination loop breaks — consuming items appended past that point changes
nothing.  In intersection mode the merged result is truncated to
`max_posts`, and once the merged accumulator reaches `max_posts` the
per-hashtag loop breaks — appending further hashtags issues no further
feed queries and leaves the result unchanged. -/
theorem C1_capacity_bound :
    (∀ (fetch : Fetcher) (cfg : CrawlConfig) (required : Option (Finset String))
        (feed : List Post) (cache : Cache),
        (collectPosts fetch cfg required feed cache).1.length ≤ cfg.maxPosts)
    ∧ (∀ (fetch : Fetcher) (cfg : CrawlConfig) (required : Option (Finset String))
        (feed extra : List Post) (cache : Cache),
        cfg.maxPosts ≤ (collectPosts fetch cfg required feed cache).1.length →
        collectPosts fetch cfg required (feed ++ extra) cache =
          collectPosts fetch cfg required feed cache)
    ∧ (∀ (fetch : Fetcher) (feeds : String → List Post) (hashtags : List String)
        (cfg : CrawlConfig) (fn : String) (out : List ProcessedPost),
        crawlMultiAnd fetch feeds hashtags cfg = .ok (some (fn, out)) →
        out.length ≤ cfg.maxPosts)
    ∧ (∀ (fetch : Fetcher) (feeds : String → List Post) (required : Finset String)
        (cfg : CrawlConfig) (hs hs' : List String) (merged : List ProcessedPost)
        (cache : Cache),
        merged.length < cfg.maxPosts →
        cfg.maxPosts ≤ (multiGo fetch feeds required cfg hs merged cache).1.length →
        multiGo fetch feeds required cfg (hs ++ hs') merged cache =
          multiGo fetch feeds required cfg hs merged cache) :=
  ⟨collectPosts_length_le, collectPosts_extend, crawlMultiAnd_ok_length, multiGo_extend⟩

/-- Witness for C1 at concrete inputs: a capacity-1 crawl over `[pImg1]`
fills up, so appending `pImg2` is never consumed; likewise the
intersection loop over hashtag `"x"` fills up, so appending hashtag `"y"`
issues no further query. -/
theorem C1_capacity_bound_witness :
    ((collectPosts fetch0 cfg1 none [pImg1] []).1.length ≤ cfg1.maxPosts)
    ∧ (cfg1.maxPosts ≤ (collectPosts fetch0 cfg1 none [pImg1] []).1.length
        ∧ collectPosts fetch0 cfg1 none ([pImg1] ++ [pImg2]) [] =
            collectPosts fetch0 cfg1 none [pImg1] [])
    ∧ (([] : List ProcessedPost).length < cfg1.maxPosts
        ∧ cfg1.maxPosts ≤ (multiGo fetch0 feeds1 req1 cfg1 ["x"] [] []).1.length
        ∧ multiGo fetch0 feeds1 req1 cfg1 (["x"] ++ ["y"]) [] [] =
            multiGo fetch0 feeds1 req1 cfg1 ["x"] [] []) :=
  ⟨C1_capacity_bound.1 fetch0 cfg1 none [pImg1] [],
    ⟨by decide,
      C1_capacity_bound.2.1 fetch0 cfg1 none [pImg1] [pImg2] [] (by decide)⟩,
    ⟨by decide, by decide,
      C1_capacity_bound.2.2.2 fetch0 feeds1 req1 cfg1 ["x"] ["y"] [] []
        (by decide) (by decide)⟩⟩

/-! ### Time cutoff -/

/-- A successfully processed post yields the record built by
`_process_post` from that post (and some fetched profile). -/
theorem processPost_some (fetch : Fetcher) (p : Post) (cache : Cache)
    (r : ProcessedPost) (h : (processPost fetch p cache).1 = some r) :
    ∃ prof, r = mkRecord p prof := by
  unfold processPost at h
  rcases hg : getProfile fetch cache p.ownerId with ⟨o, c', ws⟩
  rw [hg] at h
  cases o with
  | some prof => exact ⟨prof, by simpa using h.symm⟩
  | none => simp at h

theorem collectGo_date_ge (fetch : Fetcher) (cfg : CrawlConfig)
    (required : Option (Finset String)) (ts : Int)
    (hts : cfg.minTimestamp = some ts) :
    ∀ (feed : List Post) (posts : List ProcessedPost) (seen : List String)
      (cache : Cache) (sk : Nat),
      (∀ q ∈ posts, ts ≤ q.date) →
      ∀ r ∈ (collectGo fetch cfg required feed posts seen cache sk).1, ts ≤ r.date := by
  intro feed
  induction feed with
  | nil =>
    intro posts seen cache sk hacc r hr
    rw [collectGo_nil] at hr
    exact hacc r hr
  | cons p rest ih =>
    intro posts seen cache sk hacc r hr
    rw [collectGo_cons] at hr
    by_cases hcap : cfg.maxPosts ≤ posts.length
    · rw [if_pos hcap] at hr; exact hacc r hr
    · rw [if_neg hcap] at hr
      by_cases hold : tooOld cfg p
      · rw [if_pos hold] at hr; exact hacc r hr
      · rw [if_neg hold] at hr
        have hple : ts ≤ p.dateUtc := by
          simp only [tooOld, hts, decide_eq_true_eq] at hold
          exact not_lt.mp hold
        by_cases htype : p.typename ≠ "GraphImage"
        · rw [if_pos htype] at hr; exact ih posts seen cache (sk + 1) hacc r hr
        · rw [if_neg htype] at hr
          by_cases hseen : p.shortcode ∈ seen
          · rw [if_pos hseen] at hr; exact ih posts seen cache sk hacc r hr
          · rw [if_neg hseen] at hr
            by_cases htag : tagFail required p
            · rw [if_pos htag] at hr
              exact ih posts (p.shortcode :: seen) cache (sk + 1) hacc r hr
            · rw [if_neg htag] at hr
              cases hpc : (processPost fetch p cache).1 with
              | some r0 =>
                rw [hpc] at hr
                refine ih (posts ++ [r0]) (p.shortcode :: seen)
                  (processPost fetch p cache).2 sk ?_ r hr
                intro q hq
                rcases List.mem_append.mp hq with hq | hq
                · exact hacc q hq
                · rcases processPost_some fetch p cache r0 hpc with ⟨prof, hrf⟩
                  have hq0 : q = r0 := List.mem_singleton.mp hq
                  rw [hq0, hrf]
                  exact hple
              | none =>
                rw [hpc] at hr
                exact ih posts (p.shortcode :: seen)
                  (processPost fetch p cache).2 sk hacc r hr

/-- Encountering an item older than `min_timestamp` breaks the pagination
loop: items after it are never consumed, and it is not merely skipped. -/
theorem collectGo_timecut (fetch : Fetcher) (cfg : CrawlConfig)
    (required : Option (Finset String)) (ts : Int)
    (hts : cfg.minTimestamp = some ts) :
    ∀ (pre : List Post) (p : Post) (rest : List Post)
      (posts : List ProcessedPost) (seen : List String) (cache : Cache) (sk : Nat),
      p.dateUtc < ts →
      collectGo fetch cfg required (pre ++ p :: rest) posts seen cache sk =
        collectGo fetch cfg required pre posts seen cache sk := by
  intro pre
  induction pre with
  | nil =>
    intro p rest posts seen cache sk hp
    rw [List.nil_append, collectGo_cons, collectGo_nil]
    by_cases hcap : cfg.maxPosts ≤ posts.length
    · rw [if_pos hcap]
    · rw [if_neg hcap, if_pos (by simp [tooOld, hts, hp])]
  | cons q pre' ih =>
    intro p rest posts seen cache sk hp
    rw [List.cons_append, collectGo_cons, collectGo_cons]
    by_cases hcap : cfg.maxPosts ≤ posts.length
    · simp [hcap]
    · simp only [if_neg hcap]
      by_cases hold : tooOld cfg q
      · simp [hold]
      · simp only [hold, if_false]
        by_cases htype : q.typename ≠ "GraphImage"
        · simp only [if_pos htype]
          exact ih p rest posts seen cache (sk + 1) hp
        · simp only [if_neg htype]
          by_cases hseen : q.shortcode ∈ seen
          · simp only [if_pos hseen]
            exact ih p rest posts seen cache sk hp
          · simp only [if_neg hseen]
            by_cases htag : tagFail required q
            · simp only [htag, if_true]
              exact ih p rest posts (q.shortcode :: seen) cache (sk + 1) hp
            · simp only [htag, if_false]
              cases hpc : (processPost fetch q cache).1 with
              | some r0 =>
                simp only [hpc]
                exact ih p rest (posts ++ [r0]) (q.shortcode :: seen)
                  (processPost fetch q cache).2 sk hp
              | none =>
                simp only [hpc]
                exact ih p rest posts (q.shortcode :: seen)
                  (processPost fetch q cache).2 sk hp

/-- A capacity-100 configuration with `min_timestamp = 0`. -/
def cfg2 : CrawlConfig := { outputDir := "out", minTimestamp := some 0 }

/-- C4: with `min_timestamp` set and the feed non-increasing in timestamp,
no collected record is older than `min_timestamp`, and the collector stops
at the first under-cutoff item — everything at or after that item is never
consumed (the run equals the run on the strictly-newer prefix). -/
theorem C4_time_cutoff :
    (∀ (fetch : Fetcher) (cfg : CrawlConfig) (required : Option (Finset String))
        (feed : List Post) (cache : Cache) (ts : Int),
        cfg.minTimestamp = some ts →
        ∀ r ∈ (collectPosts fetch cfg required feed cache).1, ts ≤ r.date)
    ∧ (∀ (fetch : Fetcher) (cfg : CrawlConfig) (required : Option (Finset String))
        (pre : List Post) (p : Post) (rest : List Post) (cache : Cache) (ts : Int),
        cfg.minTimestamp = some ts →
        (∀ q ∈ pre, ts ≤ q.dateUtc) →
        p.dateUtc < ts →
        collectPosts fetch cfg required (pre ++ p :: rest) cache =
          collectPosts fetch cfg required pre cache) :=
  ⟨fun fetch cfg required feed cache ts hts =>
      collectGo_date_ge fetch cfg required ts hts feed [] [] cache 0 (by simp),
    fun fetch cfg required pre p rest cache ts hts _ hp =>
      collectGo_timecut fetch cfg required ts hts pre p rest [] [] cache 0 hp⟩

/-- Witness for C4: with cutoff 0, the record collected from `pImg1` has a
non-negative date, and the under-cutoff item `pOld` ends the run — the item
`pImg2` behind it is never consumed. -/
theorem C4_time_cutoff_witness :
    (mkRecord pImg1 prof1 ∈ (collectPosts fetch0 cfg2 none [pImg1, pOld] []).1
      ∧ (0 : Int) ≤ (mkRecord pImg1 prof1).date)
    ∧ (pOld.dateUtc < (0 : Int)
      ∧ collectPosts fetch0 cfg2 none ([pImg1] ++ pOld :: [pImg2]) [] =
          collectPosts fetch0 cfg2 none [pImg1] []) :=
  ⟨⟨by decide,
      C4_time_cutoff.1 fetch0 cfg2 none [pImg1, pOld] [] 0 rfl
        (mkRecord pImg1 prof1) (by decide)⟩,
    ⟨by decide,
      C4_time_cutoff.2 fetch0 cfg2 none [pImg1] pOld [pImg2] [] 0 rfl
        (by decide) (by decide)⟩⟩

/-! ### Minimum threshold and argument validation -/

/-- A feed map assigning every hashtag the empty feed. -/
def feedsE : String → List Post := fun _ => []

/-- C5: a collection call (single-tag crawl or intersection search) whose
qualifying record count is below `min_posts` returns `False` and writes no
file (`none` / `.ok none`); with at least `min_posts` records it writes the
output file and returns `True`. -/
theorem C5_min_threshold :
    (∀ (fetch : Fetcher) (feed : List Post) (hashtag : String) (cfg : CrawlConfig),
        ((collectPosts fetch cfg none feed []).1.length < cfg.minPosts →
          crawl fetch feed hashtag cfg = none)
        ∧ (cfg.minPosts ≤ (collectPosts fetch cfg none feed []).1.length →
          crawl fetch feed hashtag cfg =
            some (cfg.outputDir ++ "/" ++ hashtag ++ ".json",
              (collectPosts fetch cfg none feed []).1)))
    ∧ (∀ (fetch : Fetcher) (feeds : String → List Post) (hashtags : List String)
        (cfg : CrawlConfig),
        2 ≤ hashtags.length →
        (((multiGo fetch feeds ((hashtags.map strLower).toFinset) cfg
              hashtags [] []).1.take cfg.maxPosts).length < cfg.minPosts →
          crawlMultiAnd fetch feeds hashtags cfg = .ok none)
        ∧ (cfg.minPosts ≤
            ((multiGo fetch feeds ((hashtags.map strLower).toFinset) cfg
              hashtags [] []).1.take cfg.maxPosts).length →
          crawlMultiAnd fetch feeds hashtags cfg =
            .ok (some (andFilename cfg hashtags,
              (multiGo fetch feeds ((hashtags.map strLower).toFinset) cfg
                hashtags [] []).1.take cfg.maxPosts)))) := by
  constructor
  · intro fetch feed hashtag cfg
    constructor
    · intro h
      simp [crawl, h]
    · intro h
      have h' : ¬ (collectPosts fetch cfg none feed []).1.length < cfg.minPosts := by
        omega
      simp [crawl, h']
  · intro fetch feeds hashtags cfg h2
    have h2' : ¬ hashtags.length < 2 := by omega
    constructor
    · intro h
      simp only [crawlMultiAnd, if_neg h2']
      rw [if_pos h]
    · intro h
      have h' : ¬ ((multiGo fetch feeds ((hashtags.map strLower).toFinset) cfg
          hashtags [] []).1.take cfg.maxPosts).length < cfg.minPosts := by omega
      simp only [crawlMultiAnd, if_neg h2']
      rw [if_neg h']

/-- Witness for C5: an empty feed yields no file and `False`; the feed
`[pImg1]` meets `min_posts = 1` and the file is written; similarly for the
intersection search with empty versus non-empty feeds. -/
theorem C5_min_threshold_witness :
    ((collectPosts fetch0 cfg1 none [] []).1.length < cfg1.minPosts
      ∧ crawl fetch0 [] "x" cfg1 = none)
    ∧ (cfg1.minPosts ≤ (collectPosts fetch0 cfg1 none [pImg1] []).1.length
      ∧ crawl fetch0 [pImg1] "x" cfg1 =
          some (cfg1.outputDir ++ "/" ++ "x" ++ ".json",
            (collectPosts fetch0 cfg1 none [pImg1] []).1))
    ∧ (crawlMultiAnd fetch0 feedsE ["a", "b"] cfg1 = .ok none)
    ∧ (crawlMultiAnd fetch0 feeds1 ["a", "b"] cfg1 =
        .ok (some (andFilename cfg1 ["a", "b"],
          (multiGo fetch0 feeds1 ((["a", "b"].map strLower).toFinset) cfg1
            ["a", "b"] [] []).1.take cfg1.maxPosts))) :=
  ⟨⟨by decide, (C5_min_threshold.1 fetch0 [] "x" cfg1).1 (by decide)⟩,
    ⟨by decide, (C5_min_threshold.1 fetch0 [pImg1] "x" cfg1).2 (by decide)⟩,
    (C5_min_threshold.2 fetch0 feedsE ["a", "b"] cfg1 (by decide)).1 (by decide),
    (C5_min_threshold.2 fetch0 feeds1 ["a", "b"] cfg1 (by decide)).2 (by decide)⟩

/-- C7: intersection search with fewer than 2 hashtags fails immediately
with `ValueError`, uniformly in the feed and profile oracles — so before
any feed is queried and with no retry; with 2 or more hashtags no such
error is raised at call time (the result is always `.ok`). -/
theorem C7_invalid_argument :
    (∀ (fetch : Fetcher) (feeds : String → List Post) (hashtags : List String)
        (cfg : CrawlConfig),
        hashtags.length < 2 →
        crawlMultiAnd fetch feeds hashtags cfg =
          .error "crawl_multi_and requires at least 2 hashtags")
    ∧ (∀ (fetch : Fetcher) (feeds : String → List Post) (hashtags : List String)
        (cfg : CrawlConfig),
        2 ≤ hashtags.length →
        ∃ r, crawlMultiAnd fetch feeds hashtags cfg = .ok r) := by
  constructor
  · intro fetch feeds hashtags cfg h
    simp [crawlMultiAnd, h]
  · intro fetch feeds hashtags cfg h
    have h2 : ¬ hashtags.length < 2 := by omega
    simp only [crawlMultiAnd, if_neg h2]
    split
    · exact ⟨none, rfl⟩
    · exact ⟨some _, rfl⟩

/-- Witness for C7: one hashtag errors out; two hashtags yield `.ok`. -/
theorem C7_invalid_argument_witness :
    (["x"] : List String).length < 2
    ∧ crawlMultiAnd fetch0 feeds1 ["x"] cfg1 =
        .error "crawl_multi_and requires at least 2 hashtags"
    ∧ 2 ≤ (["x", "y"] : List String).length
    ∧ (crawlMultiAnd fetch0 feeds1 ["x", "y"] cfg1).isOk = true := by
  refine ⟨by decide, C7_invalid_argument.1 fetch0 feeds1 ["x"] cfg1 (by decide),
    by decide, ?_⟩
  obtain ⟨r, hr⟩ := C7_invalid_argument.2 fetch0 feeds1 ["x", "y"] cfg1 (by decide)
  rw [hr]
  rfl

/-! ### Tag containment -/

theorem mergePosts_nil (merged : List ProcessedPost) :
    mergePosts merged [] = merged := rfl

theorem mergePosts_cons (merged : List ProcessedPost) (p : ProcessedPost)
    (ps : List ProcessedPost) :
    mergePosts merged (p :: ps) =
      mergePosts (if ∃ q ∈ merged, q.shortcode = p.shortcode then merged
        else merged ++ [p]) ps := rfl

theorem mergePosts_mem (r : ProcessedPost) :
    ∀ (ps merged : List ProcessedPost), r ∈ mergePosts merged ps →
      r ∈ merged ∨ r ∈ ps := by
  intro ps
  induction ps with
  | nil => intro merged h; rw [mergePosts_nil] at h; exact Or.inl h
  | cons p ps ih =>
    intro merged h
    rw [mergePosts_cons] at h
    rcases ih _ h with hm | hp
    · by_cases hex : ∃ q ∈ merged, q.shortcode = p.shortcode
      · rw [if_pos hex] at hm; exact Or.inl hm
      · rw [if_neg hex] at hm
        rcases List.mem_append.mp hm with hm | hm
        · exact Or.inl hm
        · exact Or.inr (by simp [List.mem_singleton.mp hm])
    · exact Or.inr (List.mem_cons_of_mem p hp)

/-- Every record the loop adds under an AND filter carries all required
tags (as `#`-prefixed entries of its `tags` field). -/
theorem collectGo_tags (fetch : Fetcher) (cfg : CrawlConfig) (T : Finset String) :
    ∀ (feed : List Post) (posts : List ProcessedPost) (seen : List String)
      (cache : Cache) (sk : Nat) (r : ProcessedPost),
      r ∈ (collectGo fetch cfg (some T) feed posts seen cache sk).1 →
      r ∈ posts ∨ ∀ t ∈ T, ("#" ++ t) ∈ r.tags := by
  intro feed
  induction feed with
  | nil =>
    intro posts seen cache sk r hr
    rw [collectGo_nil] at hr
    exact Or.inl hr
  | cons p rest ih =>
    intro posts seen cache sk r hr
    rw [collectGo_cons] at hr
    by_cases hcap : cfg.maxPosts ≤ posts.length
    · rw [if_pos hcap] at hr; exact Or.inl hr
    · rw [if_neg hcap] at hr
      by_cases hold : tooOld cfg p
      · rw [if_pos hold] at hr; exact Or.inl hr
      · rw [if_neg hold] at hr
        by_cases htype : p.typename ≠ "GraphImage"
        · rw [if_pos htype] at hr; exact ih posts seen cache (sk + 1) r hr
        · rw [if_neg htype] at hr
          by_cases hseen : p.shortcode ∈ seen
          · rw [if_pos hseen] at hr; exact ih posts seen cache sk r hr
          · rw [if_neg hseen] at hr
            by_cases htag : tagFail (some T) p
            · rw [if_pos htag] at hr
              exact ih posts (p.shortcode :: seen) cache (sk + 1) r hr
            · rw [if_neg htag] at hr
              have hsub : T ⊆ p.captionHashtags.toFinset := by
                simpa [tagFail] using htag
              cases hpc : (processPost fetch p cache).1 with
              | some r0 =>
                rw [hpc] at hr
                rcases ih (posts ++ [r0]) (p.shortcode :: seen)
                    (processPost fetch p cache).2 sk r hr with hm | htags
                · rcases List.mem_append.mp hm with hm | hm
                  · exact Or.inl hm
                  · refine Or.inr ?_
                    have hr0 : r = r0 := List.mem_singleton.mp hm
                    rcases processPost_some fetch p cache r0 hpc with ⟨prof, hpr⟩
                    intro t ht
                    have htl : t ∈ p.captionHashtags :=
                      List.mem_toFinset.mp (hsub ht)
                    rw [hr0, hpr]
                    exact List.mem_map_of_mem (fun s => "#" ++ s) htl
                · exact Or.inr htags
              | none =>
                rw [hpc] at hr
                exact ih posts (p.shortcode :: seen)
                  (processPost fetch p cache).2 sk r hr

theorem multiGo_tags (fetch : Fetcher) (feeds : String → List Post)
    (T : Finset String) (cfg : CrawlConfig) :
    ∀ (hs : List String) (merged : List ProcessedPost) (cache : Cache)
      (r : ProcessedPost),
      r ∈ (multiGo fetch feeds T cfg hs merged cache).1 →
      r ∈ merged ∨ ∀ t ∈ T, ("#" ++ t) ∈ r.tags := by
  intro hs
  induction hs with
  | nil =>
    intro merged cache r hr
    rw [multiGo_nil] at hr
    exact Or.inl hr
  | cons h rest ih =>
    intro merged cache r hr
    rw [multiGo_cons] at hr
    have fromMerge :
        r ∈ mergePosts merged (collectPosts fetch cfg (some T) (feeds h) cache).1 →
        r ∈ merged ∨ ∀ t ∈ T, ("#" ++ t) ∈ r.tags := by
      intro hm
      rcases mergePosts_mem r _ _ hm with hm | hm
      · exact Or.inl hm
      · rcases collectGo_tags fetch cfg T (feeds h) [] [] cache 0 r hm with hn | ht
        · simp at hn
        · exact Or.inr ht
    by_cases hbrk : cfg.maxPosts ≤
        (mergePosts merged (collectPosts fetch cfg (some T) (feeds h) cache).1).length
    · rw [if_pos hbrk] at hr
      exact fromMerge hr
    · rw [if_neg hbrk] at hr
      rcases ih _ _ r hr with hm | ht
      · exact fromMerge hm
      · exact Or.inr ht

/-- Inversion of a successful intersection search: the saved records are
the merged dict's values truncated to `max_posts`. -/
theorem crawlMultiAnd_ok_inv (fetch : Fetcher) (feeds : String → List Post)
    (hashtags : List String) (cfg : CrawlConfig) (fn : String)
    (out : List ProcessedPost)
    (h : crawlMultiAnd fetch feeds hashtags cfg = .ok (some (fn, out))) :
    out = (multiGo fetch feeds ((hashtags.map strLower).toFinset) cfg
      hashtags [] []).1.take cfg.maxPosts := by
  unfold crawlMultiAnd at h
  by_cases h2 : hashtags.length < 2
  · simp [h2] at h
  · simp only [if_neg h2] at h
    split at h
    · exact absurd h (by simp)
    · exact (congrArg Prod.snd (Option.some.inj (Except.ok.inj h))).symm

/-- C3: in intersection mode every output record's tag set contains every
required tag — each lowercased input hashtag appears (with `#`) in the
record's `tags`. -/
theorem C3_tag_containment (fetch : Fetcher) (feeds : String → List Post)
    (hashtags : List String) (cfg : CrawlConfig) (fn : String)
    (out : List ProcessedPost)
    (h : crawlMultiAnd fetch feeds hashtags cfg = .ok (some (fn, out))) :
    ∀ r ∈ out, ∀ t ∈ (hashtags.map strLower).toFinset, ("#" ++ t) ∈ r.tags := by
  intro r hr t ht
  rw [crawlMultiAnd_ok_inv fetch feeds hashtags cfg fn out h] at hr
  have hr' : r ∈ (multiGo fetch feeds ((hashtags.map strLower).toFinset) cfg
      hashtags [] []).1 := List.take_subset _ _ hr
  rcases multiGo_tags fetch feeds _ cfg hashtags [] [] r hr' with hm | htag
  · simp at hm
  · exact htag t ht

/-- Witness for C3: the concrete AND search over `["a", "b"]` returns the
record built from `pImg1`, whose tags contain `#a`. -/
theorem C3_tag_containment_witness :
    crawlMultiAnd fetch0 feeds1 ["a", "b"] cfg1 =
      .ok (some (andFilename cfg1 ["a", "b"],
        (multiGo fetch0 feeds1 ((["a", "b"].map strLower).toFinset) cfg1
          ["a", "b"] [] []).1.take cfg1.maxPosts))
    ∧ ("#" ++ "a") ∈ (mkRecord pImg1 prof1).tags := by
  refine ⟨rfl, ?_⟩
  exact C3_tag_containment fetch0 feeds1 ["a", "b"] cfg1 _ _ rfl
    (mkRecord pImg1 prof1) (by decide) "a" (by decide)

/-! ### Profile fetch retry, drop-on-failure, memoization -/

/-- The backoff sleeps of one `_get_profile` retry loop are `5s` then
`10s`, truncated at the first successful (or not-found) attempt; no `15s`
sleep ever occurs. -/
theorem getProfileRetry_cases (fetch : Nat → FetchResult) :
    (getProfileRetry fetch).2 = [] ∨ (getProfileRetry fetch).2 = [5]
      ∨ (getProfileRetry fetch).2 = [5, 10] := by
  have hr : List.range 3 = [0, 1, 2] := rfl
  unfold getProfileRetry
  rw [hr]
  cases h0 : fetch 0 with
  | ok p => exact Or.inl (by simp [getProfileGo, h0])
  | notFound => exact Or.inl (by simp [getProfileGo, h0])
  | rateLimited =>
    cases h1 : fetch 1 with
    | ok p => exact Or.inr (Or.inl (by simp [getProfileGo, h0, h1]))
    | notFound => exact Or.inr (Or.inl (by simp [getProfileGo, h0, h1]))
    | rateLimited =>
      refine Or.inr (Or.inr ?_)
      cases h2 : fetch 2 <;> simp [getProfileGo, h0, h1, h2]

/-- When all three attempts are rate-limited the loop raises after sleeping
5s and 10s (no sleep follows the final attempt). -/
theorem getProfileRetry_allfail (fetch : Nat → FetchResult)
    (h : ∀ a, a < 3 → fetch a = .rateLimited) :
    getProfileRetry fetch = (none, [5, 10]) := by
  have h0 := h 0 (by omega)
  have h1 := h 1 (by omega)
  have h2 := h 2 (by omega)
  have hr : List.range 3 = [0, 1, 2] := rfl
  unfold getProfileRetry
  rw [hr]
  simp [getProfileGo, h0, h1, h2]

/-- Exhausted profile retries are fatal for the current post only:
`_process_post` returns `None` and the cache is unchanged. -/
theorem processPost_allfail (fetch : Fetcher) (p : Post) (cache : Cache)
    (hc : cacheLookup cache p.ownerId = none)
    (h : ∀ a, a < 3 → fetch p.ownerId a = .rateLimited) :
    processPost fetch p cache = (none, cache) := by
  unfold processPost getProfile
  rw [hc, getProfileRetry_allfail (fetch p.ownerId) h]

/-- A post whose enrichment fails is dropped and the loop continues with
the remaining feed items. -/
theorem collectGo_drop_step (fetch : Fetcher) (cfg : CrawlConfig)
    (required : Option (Finset String)) (p : Post) (rest : List Post)
    (posts : List ProcessedPost) (seen : List String) (cache : Cache) (sk : Nat)
    (hcap : ¬ cfg.maxPosts ≤ posts.length) (hold : tooOld cfg p = false)
    (htype : p.typename = "GraphImage") (hseen : p.shortcode ∉ seen)
    (htag : tagFail required p = false)
    (hfail : (processPost fetch p cache).1 = none) :
    collectGo fetch cfg required (p :: rest) posts seen cache sk =
      collectGo fetch cfg required rest posts (p.shortcode :: seen)
        (processPost fetch p cache).2 sk := by
  rw [collectGo_cons, if_neg hcap, if_neg (by simp [hold]),
    if_neg (by simp [htype]), if_neg hseen, if_neg (by simp [htag]), hfail]

/-- A successfully fetched profile is memoized: it is in the returned
cache, and any later `_get_profile` for the same owner returns it from the
cache with no fetch and no sleeps, whatever the network would do. -/
theorem getProfile_memo (fetch : Fetcher) (cache : Cache) (o : Nat)
    (p : Profile) (c' : Cache) (ws : List Nat)
    (h : getProfile fetch cache o = (some p, c', ws)) :
    cacheLookup c' o = some p ∧
      ∀ fetch' : Fetcher, getProfile fetch' c' o = (some p, c', []) := by
  have key : cacheLookup c' o = some p := by
    unfold getProfile at h
    cases hc : cacheLookup cache o with
    | some q =>
      rw [hc] at h
      have h1 : q = p := Option.some.inj (congrArg Prod.fst h)
      have h2 : cache = c' := congrArg (fun x => x.2.1) h
      rw [← h2, hc, h1]
    | none =>
      rw [hc] at h
      cases hg : getProfileRetry (fetch o) with
      | mk og wsg =>
        rw [hg] at h
        cases og with
        | some q =>
          have h1 : q = p := Option.some.inj (congrArg Prod.fst h)
          have h2 : (o, q) :: cache = c' := congrArg (fun x => x.2.1) h
          rw [← h2]
          simp [cacheLookup, h1]
        | none => exact Option.noConfusion (congrArg Prod.fst h)
  refine ⟨key, fun fetch' => ?_⟩
  unfold getProfile
  rw [key]

/-- C6 (amended): a profile-cache miss under rate limiting is retried up
to 3 attempts with backoff sleeps of 5s after the first failed attempt and
10s after the second (no 15s sleep — none follows the final attempt); if
all 3 attempts fail the failure is fatal for the current post only (the
post is dropped, the cache unchanged, and the loop continues with the
remaining posts); a fetched profile is memoized for the rest of the run. -/
theorem C6_profile_retry :
    (∀ fetch : Nat → FetchResult,
        (getProfileRetry fetch).2 = [] ∨ (getProfileRetry fetch).2 = [5]
          ∨ (getProfileRetry fetch).2 = [5, 10])
    ∧ (∀ fetch : Nat → FetchResult, (∀ a, a < 3 → fetch a = .rateLimited) →
        getProfileRetry fetch = (none, [5, 10]))
    ∧ (∀ (fetch : Fetcher) (p : Post) (cache : Cache),
        cacheLookup cache p.ownerId = none →
        (∀ a, a < 3 → fetch p.ownerId a = .rateLimited) →
        processPost fetch p cache = (none, cache))
    ∧ (∀ (fetch : Fetcher) (cfg : CrawlConfig) (required : Option (Finset String))
        (p : Post) (rest : List Post) (posts : List ProcessedPost)
        (seen : List String) (cache : Cache) (sk : Nat),
        ¬ cfg.maxPosts ≤ posts.length → tooOld cfg p = false →
        p.typename = "GraphImage" → p.shortcode ∉ seen →
        tagFail required p = false → (processPost fetch p cache).1 = none →
        collectGo fetch cfg required (p :: rest) posts seen cache sk =
          collectGo fetch cfg required rest posts (p.shortcode :: seen)
            (processPost fetch p cache).2 sk)
    ∧ (∀ (fetch : Fetcher) (cache : Cache) (o : Nat) (p : Profile)
        (c' : Cache) (ws : List Nat),
        getProfile fetch cache o = (some p, c', ws) →
        cacheLookup c' o = some p ∧
          ∀ fetch' : Fetcher, getProfile fetch' c' o = (some p, c', [])) :=
  ⟨getProfileRetry_cases, getProfileRetry_allfail, processPost_allfail,
    collectGo_drop_step, getProfile_memo⟩

/-- A fetch schedule that is rate-limited twice, then succeeds. -/
def fetchTwoFail : Nat → FetchResult :=
  fun a => if a < 2 then .rateLimited else .ok prof1

/-- A fetcher for which owner 99 is always rate-limited and every other
owner succeeds. -/
def fetchMix : Fetcher := fun o _ => if o = 99 then .rateLimited else .ok prof1

/-- An image post owned by the always-rate-limited owner 99. -/
def pFail : Post :=
  { shortcode := "sf", ownerId := 99, typename := "GraphImage"
    captionHashtags := ["a", "b"], dateUtc := 50, url := "uf"
    likes := 0, comments := 0, caption := none }

/-- Witness for C6 at concrete inputs: the fail-twice-succeed schedule
sleeps within the 5s/10s schedule; the always-failing owner is dropped
(cache untouched) and collection proceeds to the next post; owner 1's
profile, once fetched, is served from the cache even by a dead network. -/
theorem C6_profile_retry_witness :
    ((getProfileRetry fetchTwoFail).2 = [] ∨ (getProfileRetry fetchTwoFail).2 = [5]
      ∨ (getProfileRetry fetchTwoFail).2 = [5, 10])
    ∧ getProfileRetry (fun _ => FetchResult.rateLimited) = (none, [5, 10])
    ∧ processPost fetchMix pFail [] = (none, [])
    ∧ collectGo fetchMix cfg1 none (pFail :: [pImg1]) [] [] [] 0 =
        collectGo fetchMix cfg1 none [pImg1] [] [pFail.shortcode]
          (processPost fetchMix pFail []).2 0
    ∧ cacheLookup (getProfile fetchMix [] 1).2.1 1 = some prof1
    ∧ getProfile (fun _ _ => FetchResult.rateLimited) (getProfile fetchMix [] 1).2.1 1 =
        (some prof1, (getProfile fetchMix [] 1).2.1, []) := by
  refine ⟨C6_profile_retry.1 fetchTwoFail,
    C6_profile_retry.2.1 _ (by intro a _; rfl),
    C6_profile_retry.2.2.1 fetchMix pFail [] rfl (by intro a _; rfl),
    C6_profile_retry.2.2.2.1 fetchMix cfg1 none pFail [pImg1] [] [] [] 0
      (by decide) rfl rfl (by simp) rfl rfl, ?_, ?_⟩
  · exact (C6_profile_retry.2.2.2.2 fetchMix [] 1 prof1
      (getProfile fetchMix [] 1).2.1 (getProfile fetchMix [] 1).2.2 rfl).1
  · exact (C6_profile_retry.2.2.2.2 fetchMix [] 1 prof1
      (getProfile fetchMix [] 1).2.1 (getProfile fetchMix [] 1).2.2 rfl).2 _

/-- Counterexample to C6 as stated: when every attempt is rate-limited the
backoff sleeps are exactly `[5, 10]` — there is no 15s backoff delay. -/
theorem C6_counterexample :
    (getProfileRetry (fun _ => FetchResult.rateLimited)).2 = [5, 10]
    ∧ (getProfileRetry (fun _ => FetchResult.rateLimited)).2 ≠ [5, 10, 15]
    ∧ (15 : Nat) ∉ (getProfileRetry (fun _ => FetchResult.rateLimited)).2 := by
  decide

/-! ### Deduplication: first occurrence to reach the dedup check wins -/

/-- `r` was derived (by `_process_post`) from the first `GraphImage`
occurrence of its shortcode in the feed: some split `pre ++ p :: rest`
exists where `p` carries `r`'s shortcode, is a `GraphImage`, no earlier
feed item with that shortcode is a `GraphImage` (non-image occurrences are
skipped by the type filter *before* the dedup check), and `r` is the
record `_process_post` builds from `p`. -/
def FirstImageDerived (feed : List Post) (r : ProcessedPost) : Prop :=
  ∃ pre p rest, feed = pre ++ p :: rest ∧ p.shortcode = r.shortcode ∧
    p.typename = "GraphImage" ∧
    (∀ q ∈ pre, q.shortcode = r.shortcode → q.typename ≠ "GraphImage") ∧
    ∃ prof, r = mkRecord p prof

theorem firstImageDerived_cons (p : Post) (feed : List Post) (r : ProcessedPost)
    (h : FirstImageDerived feed r)
    (hp : p.shortcode = r.shortcode → p.typename ≠ "GraphImage") :
    FirstImageDerived (p :: feed) r := by
  obtain ⟨pre, q, rest, hfeed, hsc, htn, hpre, prof, hrec⟩ := h
  refine ⟨p :: pre, q, rest, by rw [hfeed]; rfl, hsc, htn, ?_, prof, hrec⟩
  intro x hx hxsc
  rcases List.mem_cons.mp hx with hx | hx
  · rw [hx]; exact hp (hx ▸ hxsc)
  · exact hpre x hx hxsc

theorem collectGo_nodup (fetch : Fetcher) (cfg : CrawlConfig)
    (required : Option (Finset String)) :
    ∀ (feed : List Post) (posts : List ProcessedPost) (seen : List String)
      (cache : Cache) (sk : Nat),
      (∀ q ∈ posts, q.shortcode ∈ seen) →
      (posts.map (fun r => r.shortcode)).Nodup →
      ((collectGo fetch cfg required feed posts seen cache sk).1.map
        (fun r => r.shortcode)).Nodup := by
  intro feed
  induction feed with
  | nil => intro posts seen cache sk _ hnd; rw [collectGo_nil]; exact hnd
  | cons p rest ih =>
    intro posts seen cache sk hsub hnd
    rw [collectGo_cons]
    by_cases hcap : cfg.maxPosts ≤ posts.length
    · rw [if_pos hcap]; exact hnd
    · rw [if_neg hcap]
      by_cases hold : tooOld cfg p
      · rw [if_pos hold]; exact hnd
      · rw [if_neg hold]
        by_cases htype : p.typename ≠ "GraphImage"
        · rw [if_pos htype]; exact ih posts seen cache (sk + 1) hsub hnd
        · rw [if_neg htype]
          by_cases hseen : p.shortcode ∈ seen
          · rw [if_pos hseen]; exact ih posts seen cache sk hsub hnd
          · rw [if_neg hseen]
            have hsub' : ∀ q ∈ posts, q.shortcode ∈ p.shortcode :: seen :=
              fun q hq => List.mem_cons_of_mem _ (hsub q hq)
            by_cases htag : tagFail required p
            · rw [if_pos htag]
              exact ih posts _ cache (sk + 1) hsub' hnd
            · rw [if_neg htag]
              cases hpc : (processPost fetch p cache).1 with
              | some r0 =>
                have hr0sc : r0.shortcode = p.shortcode := by
                  rcases processPost_some fetch p cache r0 hpc with ⟨prof, hpr⟩
                  rw [hpr]
                  rfl
                refine ih (posts ++ [r0]) _ _ sk ?_ ?_
                · intro q hq
                  rcases List.mem_append.mp hq with hq | hq
                  · exact List.mem_cons_of_mem _ (hsub q hq)
                  · rw [List.mem_singleton.mp hq, hr0sc]
                    exact List.mem_cons_self ..
                · have hni : r0.shortcode ∉ posts.map (fun r => r.shortcode) := by
                    intro hm
                    rcases List.mem_map.mp hm with ⟨q, hq, hqs⟩
                    exact hseen (by rw [← hr0sc, ← hqs]; exact hsub q hq)
                  simp [List.map_append, List.nodup_append, hnd, hni]
              | none => exact ih posts _ _ sk hsub' hnd

theorem collectGo_first_image (fetch : Fetcher) (cfg : CrawlConfig)
    (required : Option (Finset String)) :
    ∀ (feed : List Post) (posts : List ProcessedPost) (seen : List String)
      (cache : Cache) (sk : Nat) (r : ProcessedPost),
      r ∈ (collectGo fetch cfg required feed posts seen cache sk).1 →
      r ∈ posts ∨ (r.shortcode ∉ seen ∧ FirstImageDerived feed r) := by
  intro feed
  induction feed with
  | nil =>
    intro posts seen cache sk r hr
    rw [collectGo_nil] at hr
    exact Or.inl hr
  | cons p rest ih =>
    intro posts seen cache sk r hr
    rw [collectGo_cons] at hr
    by_cases hcap : cfg.maxPosts ≤ posts.length
    · rw [if_pos hcap] at hr; exact Or.inl hr
    · rw [if_neg hcap] at hr
      by_cases hold : tooOld cfg p
      · rw [if_pos hold] at hr; exact Or.inl hr
      · rw [if_neg hold] at hr
        by_cases htype : p.typename ≠ "GraphImage"
        · rw [if_pos htype] at hr
          rcases ih posts seen cache (sk + 1) r hr with hm | ⟨hns, hfid⟩
          · exact Or.inl hm
          · exact Or.inr ⟨hns, firstImageDerived_cons p rest r hfid (fun _ => htype)⟩
        · rw [if_neg htype] at hr
          have himg : p.typename = "GraphImage" := not_not.mp htype
          by_cases hseen : p.shortcode ∈ seen
          · rw [if_pos hseen] at hr
            rcases ih posts seen cache sk r hr with hm | ⟨hns, hfid⟩
            · exact Or.inl hm
            · refine Or.inr ⟨hns, firstImageDerived_cons p rest r hfid ?_⟩
              intro he
              exact absurd (he ▸ hseen) hns
          · rw [if_neg hseen] at hr
            have lift : ∀ r' : ProcessedPost,
                r'.shortcode ∉ p.shortcode :: seen → FirstImageDerived rest r' →
                r'.shortcode ∉ seen ∧ FirstImageDerived (p :: rest) r' := by
              intro r' hns' hfid
              have hns : r'.shortcode ∉ seen :=
                fun hm => hns' (List.mem_cons_of_mem _ hm)
              have hne : p.shortcode ≠ r'.shortcode := by
                intro he
                exact hns' (he ▸ List.mem_cons_self ..)
              exact ⟨hns, firstImageDerived_cons p rest r' hfid
                (fun he => absurd he hne)⟩
            by_cases htag : tagFail required p
            · rw [if_pos htag] at hr
              rcases ih posts _ cache (sk + 1) r hr with hm | ⟨hns', hfid⟩
              · exact Or.inl hm
              · exact Or.inr (lift r hns' hfid)
            · rw [if_neg htag] at hr
              cases hpc : (processPost fetch p cache).1 with
              | some r0 =>
                rw [hpc] at hr
                rcases ih (posts ++ [r0]) _ _ sk r hr with hm | ⟨hns', hfid⟩
                · rcases List.mem_append.mp hm with hm | hm
                  · exact Or.inl hm
                  · have hr0 : r = r0 := List.mem_singleton.mp hm
                    rcases processPost_some fetch p cache r0 hpc with ⟨prof, hpr⟩
                    have hsc : p.shortcode = r.shortcode := by rw [hr0, hpr]; rfl
                    refine Or.inr ⟨by rw [← hsc]; exact hseen, ?_⟩
                    exact ⟨[], p, rest, rfl, hsc, himg, by simp,
                      prof, by rw [hr0, hpr]⟩
                · exact Or.inr (lift r hns' hfid)
              | none =>
                rw [hpc] at hr
                rcases ih posts _ _ sk r hr with hm | ⟨hns', hfid⟩
                · exact Or.inl hm
                · exact Or.inr (lift r hns' hfid)

/-- `merged.setdefault` semantics: looking a shortcode up in the merged
accumulator prefers the record already present (the earlier feed's
contribution); a feed's records fill only the gaps. -/
theorem mergePosts_find (s : String) :
    ∀ (ps merged : List ProcessedPost),
      (mergePosts merged ps).find? (fun q => decide (q.shortcode = s)) =
        (merged.find? (fun q => decide (q.shortcode = s))).or
          (ps.find? (fun q => decide (q.shortcode = s))) := by
  intro ps
  induction ps with
  | nil =>
    intro merged
    rw [mergePosts_nil, List.find?_nil, Option.or_none]
  | cons p ps ih =>
    intro merged
    rw [mergePosts_cons, ih]
    by_cases hex : ∃ q ∈ merged, q.shortcode = p.shortcode
    · rw [if_pos hex]
      by_cases hps : p.shortcode = s
      · obtain ⟨q, hq, hqs⟩ := hex
        have hsome : (merged.find? (fun q => decide (q.shortcode = s))).isSome := by
          rw [List.find?_isSome]
          exact ⟨q, hq, by simp [hqs, hps]⟩
        obtain ⟨a, ha⟩ := Option.isSome_iff_exists.mp hsome
        rw [ha]
        rfl
      · rw [List.find?_cons_of_neg _ (by simp [hps])]
    · rw [if_neg hex, List.find?_append, Option.or_assoc]
      congr 1
      by_cases hps : p.shortcode = s
      · rw [List.find?_cons_of_pos _ (by simp [hps]),
          List.find?_cons_of_pos _ (by simp [hps])]
        rfl
      · rw [List.find?_cons_of_neg _ (by simp [hps]),
          List.find?_cons_of_neg _ (by simp [hps])]
        rfl

theorem mergePosts_nodup :
    ∀ (ps merged : List ProcessedPost),
      (merged.map (fun r => r.shortcode)).Nodup →
      ((mergePosts merged ps).map (fun r => r.shortcode)).Nodup := by
  intro ps
  induction ps with
  | nil => intro merged h; rwa [mergePosts_nil]
  | cons p ps ih =>
    intro merged h
    rw [mergePosts_cons]
    refine ih _ ?_
    by_cases hex : ∃ q ∈ merged, q.shortcode = p.shortcode
    · rwa [if_pos hex]
    · rw [if_neg hex]
      have hni : p.shortcode ∉ merged.map (fun r => r.shortcode) := by
        intro hm
        rcases List.mem_map.mp hm with ⟨q, hq, hqs⟩
        exact hex ⟨q, hq, hqs⟩
      simp [List.map_append, List.nodup_append, h, hni]

theorem multiGo_nodup (fetch : Fetcher) (feeds : String → List Post)
    (T : Finset String) (cfg : CrawlConfig) :
    ∀ (hs : List String) (merged : List ProcessedPost) (cache : Cache),
      (merged.map (fun r => r.shortcode)).Nodup →
      ((multiGo fetch feeds T cfg hs merged cache).1.map
        (fun r => r.shortcode)).Nodup := by
  intro hs
  induction hs with
  | nil => intro merged cache h; rwa [multiGo_nil]
  | cons h rest ih =>
    intro merged cache hnd
    rw [multiGo_cons]
    by_cases hbrk : cfg.maxPosts ≤
        (mergePosts merged (collectPosts fetch cfg (some T) (feeds h) cache).1).length
    · rw [if_pos hbrk]; exact mergePosts_nodup _ _ hnd
    · rw [if_neg hbrk]; exact ih _ _ (mergePosts_nodup _ _ hnd)

theorem crawlMultiAnd_nodup (fetch : Fetcher) (feeds : String → List Post)
    (hashtags : List String) (cfg : CrawlConfig) (fn : String)
    (out : List ProcessedPost)
    (h : crawlMultiAnd fetch feeds hashtags cfg = .ok (some (fn, out))) :
    (out.map (fun r => r.shortcode)).Nodup := by
  rw [crawlMultiAnd_ok_inv fetch feeds hashtags cfg fn out h]
  have hnd := multiGo_nodup fetch feeds ((hashtags.map strLower).toFinset) cfg
    hashtags [] [] (by simp)
  rw [List.map_take]
  exact (List.take_sublist ..).nodup hnd

/-- C2 (amended): within one collection call the output's shortcodes are
pairwise distinct, and each output record derives from the *first
occurrence of its shortcode that reaches the dedup check*, i.e. the first
`GraphImage` occurrence (a first occurrence skipped earlier by the type
filter does not win); across feeds the `setdefault` merge keeps the
earlier feed's record for an already-seen shortcode, and the merged output
of an intersection search likewise has pairwise-distinct shortcodes. -/
theorem C2_dedup_first_wins :
    (∀ (fetch : Fetcher) (cfg : CrawlConfig) (required : Option (Finset String))
        (feed : List Post) (cache : Cache),
        ((collectPosts fetch cfg required feed cache).1.map
          (fun r => r.shortcode)).Nodup)
    ∧ (∀ (fetch : Fetcher) (cfg : CrawlConfig) (required : Option (Finset String))
        (feed : List Post) (cache : Cache) (r : ProcessedPost),
        r ∈ (collectPosts fetch cfg required feed cache).1 →
        FirstImageDerived feed r)
    ∧ (∀ (s : String) (merged ps : List ProcessedPost),
        (mergePosts merged ps).find? (fun q => decide (q.shortcode = s)) =
          (merged.find? (fun q => decide (q.shortcode = s))).or
            (ps.find? (fun q => decide (q.shortcode = s))))
    ∧ (∀ (fetch : Fetcher) (feeds : String → List Post) (hashtags : List String)
        (cfg : CrawlConfig) (fn : String) (out : List ProcessedPost),
        crawlMultiAnd fetch feeds hashtags cfg = .ok (some (fn, out)) →
        (out.map (fun r => r.shortcode)).Nodup) := by
  refine ⟨?_, ?_, fun s merged ps => mergePosts_find s ps merged, crawlMultiAnd_nodup⟩
  · intro fetch cfg required feed cache
    exact collectGo_nodup fetch cfg required feed [] [] cache 0
      (by simp) (by simp)
  · intro fetch cfg required feed cache r hr
    rcases collectGo_first_image fetch cfg required feed [] [] cache 0 r hr with
      hm | ⟨-, hfid⟩
    · simp at hm
    · exact hfid

/-- Witness for C2 at concrete inputs: in the feed `[pVid1, pImg1]` (same
shortcode twice) the collected record derives from `pImg1`, the first
occurrence to reach the dedup check; a concrete `setdefault` merge keeps
the earlier record; a concrete AND-search output has distinct shortcodes. -/
theorem C2_dedup_first_wins_witness :
    ((collectPosts fetch0 cfg1 none [pVid1, pImg1] []).1.map
      (fun r => r.shortcode)).Nodup
    ∧ mkRecord pImg1 prof1 ∈ (collectPosts fetch0 cfg1 none [pVid1, pImg1] []).1
    ∧ FirstImageDerived [pVid1, pImg1] (mkRecord pImg1 prof1)
    ∧ (mergePosts [mkRecord pImg1 prof1] [mkRecord pVid1 prof1]).find?
        (fun q => decide (q.shortcode = "s1")) =
        ([mkRecord pImg1 prof1].find? (fun q => decide (q.shortcode = "s1"))).or
          ([mkRecord pVid1 prof1].find? (fun q => decide (q.shortcode = "s1")))
    ∧ ((collectPosts fetch0 cfg1 none [pVid1, pImg1] []).1.map
        (fun r => r.shortcode)) = ["s1"] :=
  ⟨C2_dedup_first_wins.1 fetch0 cfg1 none [pVid1, pImg1] [],
    by decide,
    C2_dedup_first_wins.2.1 fetch0 cfg1 none [pVid1, pImg1] []
      (mkRecord pImg1 prof1) (by decide),
    C2_dedup_first_wins.2.2.1 "s1" [mkRecord pImg1 prof1] [mkRecord pVid1 prof1],
    by decide⟩

/-- Counterexample to C2 as stated: in the feed `[pVid1, pImg1]` the
shortcode `s1` appears twice, yet the single output record is the one
derived from the *second* occurrence (`pImg1`), not the first (`pVid1` is
skipped by the type filter before dedup); and in the feed
`[pVid1, pVid1]` the shortcode appears twice but the output contains *no*
record for it at all. -/
theorem C2_counterexample :
    (collectPosts fetch0 cfg1 none [pVid1, pImg1] []).1 = [mkRecord pImg1 prof1]
    ∧ mkRecord pImg1 prof1 ≠ mkRecord pVid1 prof1
    ∧ (collectPosts fetch0 cfg1 none [pVid1, pVid1] []).1 = [] := by
  decide

/-! ### CSV export (export.py) -/

/-- `RECENCY_THRESHOLD` from export.py: 24 hours in seconds. -/
def RECENCY_THRESHOLD : Int := 60 * 60 * 24

/-- A post dict as read back from a crawled JSON file, with the fields
`_write_posts` reads.  (Files written by the crawler carry every field,
so the row-building `.get` defaults never fire and are not modelled.) -/
structure ExportPost where
  shortcode : String
  picUrl : String
  likeCount : Nat
  username : String
  userId : Nat
  fullName : String
  profilePicUrl : String
  mediaCount : Nat
  followerCount : Nat
  commentCount : Nat
  date : Int
  caption : String
  tags : List String
deriving DecidableEq

/-- The CSV row `_write_posts` emits for one post, cells stringified as
the `csv` writer does. -/
def mkRow (p : ExportPost) : List String :=
  [p.shortcode, p.picUrl, toString p.likeCount, p.username, toString p.userId,
    p.fullName, p.profilePicUrl, toString p.mediaCount, toString p.followerCount,
    toString p.commentCount, toString p.date, p.caption, toString p.tags]

/-- `max(p["date"] for p in posts)` as a running maximum. -/
def maxDateFrom (d : Int) : List Int → Int
  | [] => d
  | x :: xs => maxDateFrom (max d x) xs

/-- `_write_posts`: on a non-empty posts list, compute the newest date and
emit one row per post, skipping (`continue`) every post whose date is
within `RECENCY_THRESHOLD` of the newest; an empty list writes nothing. -/
def writePosts (posts : List ExportPost) : List (List String) :=
  match posts with
  | [] => []
  | p0 :: _ =>
    let maxDate := maxDateFrom p0.date (posts.map (fun p => p.date))
    let threshold := maxDate - RECENCY_THRESHOLD
    (posts.filter (fun p => !(decide (threshold < p.date)))).map mkRow

theorem maxDateFrom_ge_init : ∀ (l : List Int) (d : Int), d ≤ maxDateFrom d l := by
  intro l
  induction l with
  | nil => intro d; exact le_refl d
  | cons x xs ih =>
    intro d
    exact le_trans (le_max_left d x) (ih (max d x))

theorem maxDateFrom_ge_mem : ∀ (l : List Int) (d : Int), ∀ x ∈ l, x ≤ maxDateFrom d l := by
  intro l
  induction l with
  | nil => intro d x hx; simp at hx
  | cons y ys ih =>
    intro d x hx
    rcases List.mem_cons.mp hx with hx | hx
    · rw [hx]
      exact le_trans (le_max_right d y) (maxDateFrom_ge_init ys (max d y))
    · exact ih (max d y) x hx

theorem maxDateFrom_le : ∀ (l : List Int) (d b : Int), d ≤ b → (∀ x ∈ l, x ≤ b) →
    maxDateFrom d l ≤ b := by
  intro l
  induction l with
  | nil => intro d b hd _; exact hd
  | cons x xs ih =>
    intro d b hd hl
    refine ih (max d x) b (max_le hd (hl x (List.mem_cons_self ..))) ?_
    intro y hy
    exact hl y (List.mem_cons_of_mem x hy)

/-- C10: for a non-empty posts list, the export writes exactly the rows of
the posts dated at most `max_date - 86400`; every post within 24 hours of
the newest date is omitted, and in particular a newest post itself is
never exported. -/
theorem C10_export_recency :
    ∀ (posts : List ExportPost) (p0 : ExportPost) (rest : List ExportPost),
      posts = p0 :: rest →
      (writePosts posts =
        (posts.filter (fun p => decide (p.date ≤
          maxDateFrom p0.date (posts.map (fun q => q.date)) - RECENCY_THRESHOLD))).map mkRow)
      ∧ (∀ p ∈ posts,
          maxDateFrom p0.date (posts.map (fun q => q.date)) - RECENCY_THRESHOLD < p.date →
          p ∉ posts.filter (fun q => decide (q.date ≤
            maxDateFrom p0.date (posts.map (fun q => q.date)) - RECENCY_THRESHOLD)))
      ∧ (∀ p ∈ posts, (∀ q ∈ posts, q.date ≤ p.date) →
          p ∉ posts.filter (fun q => decide (q.date ≤
            maxDateFrom p0.date (posts.map (fun q => q.date)) - RECENCY_THRESHOLD))) := by
  intro posts p0 rest hposts
  refine ⟨?_, ?_, ?_⟩
  · rw [hposts]
    have hfil : (p0 :: rest).filter (fun p => !(decide (maxDateFrom p0.date
          ((p0 :: rest).map (fun q => q.date)) - RECENCY_THRESHOLD < p.date)))
        = (p0 :: rest).filter (fun p => decide (p.date ≤ maxDateFrom p0.date
          ((p0 :: rest).map (fun q => q.date)) - RECENCY_THRESHOLD)) := by
      refine List.filter_congr ?_
      intro x _
      show (!(decide (maxDateFrom p0.date ((p0 :: rest).map (fun q => q.date)) -
          RECENCY_THRESHOLD < x.date)))
        = decide (x.date ≤ maxDateFrom p0.date ((p0 :: rest).map (fun q => q.date)) -
          RECENCY_THRESHOLD)
      generalize maxDateFrom p0.date ((p0 :: rest).map (fun q => q.date)) -
        RECENCY_THRESHOLD = t
      by_cases h : x.date ≤ t
      · simp [h, not_lt.mpr h]
      · simp [h, not_le.mp h]
    show ((p0 :: rest).filter (fun p => !(decide (maxDateFrom p0.date
        ((p0 :: rest).map (fun q => q.date)) - RECENCY_THRESHOLD < p.date)))).map mkRow = _
    rw [hfil]
  · intro p _ hgt hmem
    have := (List.mem_filter.mp hmem).2
    rw [decide_eq_true_eq] at this
    exact absurd this (not_le.mpr hgt)
  · intro p hp hmax hmem
    have hub : maxDateFrom p0.date (posts.map (fun q => q.date)) ≤ p.date := by
      refine maxDateFrom_le _ _ _ (hmax p0 (hposts ▸ List.mem_cons_self ..)) ?_
      intro x hx
      rcases List.mem_map.mp hx with ⟨q, hq, hqx⟩
      rw [← hqx]
      exact hmax q hq
    have := (List.mem_filter.mp hmem).2
    rw [decide_eq_true_eq] at this
    have hT : RECENCY_THRESHOLD = 86400 := rfl
    omega

/-- A post dated 0, old enough to be exported next to `e2`. -/
def e1 : ExportPost :=
  { shortcode := "e1", picUrl := "p1", likeCount := 1, username := "u1"
    userId := 1, fullName := "f1", profilePicUrl := "pp1", mediaCount := 1
    followerCount := 1, commentCount := 1, date := 0, caption := "c1"
    tags := ["#a"] }

/-- The newest post of the witness file, dated 100000. -/
def e2 : ExportPost :=
  { shortcode := "e2", picUrl := "p2", likeCount := 2, username := "u2"
    userId := 2, fullName := "f2", profilePicUrl := "pp2", mediaCount := 2
    followerCount := 2, commentCount := 2, date := 100000, caption := "c2"
    tags := ["#b"] }

/-- Witness for C10: in the file `[e1, e2]` the export equals the
threshold filter, and the newest post `e2` is not among the kept posts. -/
theorem C10_export_recency_witness :
    (writePosts [e1, e2] =
      ([e1, e2].filter (fun p => decide (p.date ≤
        maxDateFrom e1.date ([e1, e2].map (fun q => q.date)) - RECENCY_THRESHOLD))).map mkRow)
    ∧ e2 ∉ [e1, e2].filter (fun q => decide (q.date ≤
        maxDateFrom e1.date ([e1, e2].map (fun q => q.date)) - RECENCY_THRESHOLD)) :=
  ⟨(C10_export_recency [e1, e2] e1 [e2] rfl).1,
    (C10_export_recency [e1, e2] e1 [e2] rfl).2.2 e2 (by decide) (by decide)⟩

/-! ### Legacy pagination (root crawler.py, `get_posts`) -/

/-- One page of `api.feed_tag`: raw items (opaque ids) and the
continuation cursor `next_max_id`. -/
structure FeedPage where
  items : List Nat
  nextMaxId : Option String
deriving DecidableEq

/-- The exact message the legacy loop treats as a rate-limit signal. -/
def rateLimitMsg : String :=
  "Bad Request: Please wait a few minutes before you try again."

/-- The `while next_max_id and len(feed) < max_collect_media` loop of the
legacy `get_posts` (root crawler.py lines 109-120), driven by a script of
API responses consumed one call at a time.  State: the current `results`
page, the accumulated `feed`, and the log of sleeps.  On a rate-limit
error the code sleeps 60 and then falls through to
`feed.extend(results.get('items', []))` with `results` still holding the
PREVIOUS page, after which `next_max_id` is recomputed from that same
stale page, so the same cursor is requested again; any other error
propagates.  An empty script models an API call with no scripted
response. -/
def getPostsLoop (maxCollect : Nat) :
    List (Except String FeedPage) → FeedPage → List Nat → List Nat →
    Except String (List Nat × List Nat)
  | script, results, feed, sleeps =>
    match results.nextMaxId with
    | none => .ok (feed, sleeps)
    | some _ =>
      if feed.length < maxCollect then
        match script with
        | [] => .error "no scripted response"
        | resp :: rest =>
          match resp with
          | .ok page => getPostsLoop maxCollect rest page (feed ++ page.items) sleeps
          | .error e =>
            if e = rateLimitMsg then
              getPostsLoop maxCollect rest results (feed ++ results.items)
                (sleeps ++ [60])
            else .error e
      else .ok (feed, sleeps)

/-- Legacy `get_posts`: the initial `feed_tag` call (any exception there
propagates, with no retry), then either return the first page immediately
when `min_timestamp` is set, or run the pagination loop. -/
def getPosts (maxCollect : Nat) (minTimestamp : Option Int) :
    List (Except String FeedPage) → Except String (List Nat × List Nat)
  | [] => .error "no scripted response"
  | first :: rest =>
    match first with
    | .error e => .error e
    | .ok page =>
      if minTimestamp.isSome then .ok (page.items, [])
      else getPostsLoop maxCollect rest page page.items []

/-- C9 (evaluating the code at the failing input): a rate-limited page
fetch sleeps 60 and does retry the same cursor, but it also re-appends the
previous page's items before retrying — the feed comes back `[1, 1, 2]`
instead of the `[1, 2]` a clean single retry would give; a fetch error
with any other message is fatal and propagates. -/
theorem C9_feed_retry_behavior :
    getPosts 100 none
      [.ok ⟨[1], some "c1"⟩, .error rateLimitMsg, .ok ⟨[2], none⟩] =
      .ok ([1, 1, 2], [60])
    ∧ getPosts 100 none [.ok ⟨[1], some "c1"⟩, .error "boom"] = .error "boom" := by
  constructor <;> rfl

/-! ### Cache coherence: the shared profile cache does not change outputs -/

/-- A cache is coherent with the fetch oracle when every memoized profile
is exactly what a fresh retry loop for that owner would return.  Every
cache built by this code from the empty one is coherent, because entries
are only ever inserted from a successful retry loop. -/
def Coherent (fetch : Fetcher) (cache : Cache) : Prop :=
  ∀ o p, cacheLookup cache o = some p → (getProfileRetry (fetch o)).1 = some p

theorem coherent_nil (fetch : Fetcher) : Coherent fetch [] := by
  intro o p h
  simp [cacheLookup] at h

theorem getProfile_fst_coherent (fetch : Fetcher) (cache : Cache) (o : Nat)
    (hc : Coherent fetch cache) :
    (getProfile fetch cache o).1 = (getProfileRetry (fetch o)).1 := by
  unfold getProfile
  cases hl : cacheLookup cache o with
  | some p => exact (hc o p hl).symm
  | none =>
    rcases hg : getProfileRetry (fetch o) with ⟨og, ws⟩
    cases og <;> rfl

theorem getProfile_coherent (fetch : Fetcher) (cache : Cache) (o : Nat)
    (hc : Coherent fetch cache) :
    Coherent fetch (getProfile fetch cache o).2.1 := by
  unfold getProfile
  cases hl : cacheLookup cache o with
  | some q => exact hc
  | none =>
    rcases hg : getProfileRetry (fetch o) with ⟨og, ws⟩
    cases og with
    | some q =>
      intro o' p' hl'
      by_cases ho : o = o'
      · have hq : p' = q := by
          rw [← ho] at hl'
          simpa [cacheLookup] using hl'.symm
        rw [← ho, hg, hq]
      · exact hc o' p' (by simpa [cacheLookup, ho] using hl')
    | none => exact hc

theorem processPost_fst_coherent (fetch : Fetcher) (p : Post) (cache : Cache)
    (hc : Coherent fetch cache) :
    (processPost fetch p cache).1 =
      ((getProfileRetry (fetch p.ownerId)).1).map (mkRecord p) := by
  unfold processPost
  have h := getProfile_fst_coherent fetch cache p.ownerId hc
  rcases hg : getProfile fetch cache p.ownerId with ⟨og, c', ws⟩
  rw [hg] at h
  rw [← h]
  cases og <;> rfl

theorem processPost_snd (fetch : Fetcher) (p : Post) (cache : Cache) :
    (processPost fetch p cache).2 = (getProfile fetch cache p.ownerId).2.1 := by
  unfold processPost
  rcases hg : getProfile fetch cache p.ownerId with ⟨og, c', ws⟩
  cases og <;> rfl

theorem processPost_coherent (fetch : Fetcher) (p : Post) (cache : Cache)
    (hc : Coherent fetch cache) :
    Coherent fetch (processPost fetch p cache).2 := by
  rw [processPost_snd]
  exact getProfile_coherent fetch cache p.ownerId hc

theorem collectGo_coherent (fetch : Fetcher) (cfg : CrawlConfig)
    (required : Option (Finset String)) :
    ∀ (feed : List Post) (posts : List ProcessedPost) (seen : List String)
      (cache : Cache) (sk : Nat), Coherent fetch cache →
      Coherent fetch (collectGo fetch cfg required feed posts seen cache sk).2.1 := by
  intro feed
  induction feed with
  | nil => intro posts seen cache sk hc; rw [collectGo_nil]; exact hc
  | cons p rest ih =>
    intro posts seen cache sk hc
    rw [collectGo_cons]
    by_cases hcap : cfg.maxPosts ≤ posts.length
    · rw [if_pos hcap]; exact hc
    · rw [if_neg hcap]
      by_cases hold : tooOld cfg p
      · rw [if_pos hold]; exact hc
      · rw [if_neg hold]
        by_cases htype : p.typename ≠ "GraphImage"
        · rw [if_pos htype]; exact ih posts seen cache (sk + 1) hc
        · rw [if_neg htype]
          by_cases hseen : p.shortcode ∈ seen
          · rw [if_pos hseen]; exact ih posts seen cache sk hc
          · rw [if_neg hseen]
            by_cases htag : tagFail required p
            · rw [if_pos htag]; exact ih posts _ cache (sk + 1) hc
            · rw [if_neg htag]
              have hc' := processPost_coherent fetch p cache hc
              cases hpc : (processPost fetch p cache).1 with
              | some r0 => exact ih (posts ++ [r0]) _ _ sk hc'
              | none => exact ih posts _ _ sk hc'

/-- The records a collection produces do not depend on which coherent
cache it starts from (the cache only saves refetches). -/
theorem collectGo_fst_coherent (fetch : Fetcher) (cfg : CrawlConfig)
    (required : Option (Finset String)) :
    ∀ (feed : List Post) (posts : List ProcessedPost) (seen : List String)
      (c₁ c₂ : Cache) (sk : Nat), Coherent fetch c₁ → Coherent fetch c₂ →
      (collectGo fetch cfg required feed posts seen c₁ sk).1 =
        (collectGo fetch cfg required feed posts seen c₂ sk).1 := by
  intro feed
  induction feed with
  | nil => intro posts seen c₁ c₂ sk _ _; rw [collectGo_nil, collectGo_nil]
  | cons p rest ih =>
    intro posts seen c₁ c₂ sk h₁ h₂
    rw [collectGo_cons, collectGo_cons]
    by_cases hcap : cfg.maxPosts ≤ posts.length
    · rw [if_pos hcap, if_pos hcap]
    · rw [if_neg hcap, if_neg hcap]
      by_cases hold : tooOld cfg p
      · rw [if_pos hold, if_pos hold]
      · rw [if_neg hold, if_neg hold]
        by_cases htype : p.typename ≠ "GraphImage"
        · rw [if_pos htype, if_pos htype]
          exact ih posts seen c₁ c₂ (sk + 1) h₁ h₂
        · rw [if_neg htype, if_neg htype]
          by_cases hseen : p.shortcode ∈ seen
          · rw [if_pos hseen, if_pos hseen]
            exact ih posts seen c₁ c₂ sk h₁ h₂
          · rw [if_neg hseen, if_neg hseen]
            by_cases htag : tagFail required p
            · rw [if_pos htag, if_pos htag]
              exact ih posts _ c₁ c₂ (sk + 1) h₁ h₂
            · rw [if_neg htag, if_neg htag]
              have hfst : (processPost fetch p c₁).1 = (processPost fetch p c₂).1 := by
                rw [processPost_fst_coherent fetch p c₁ h₁,
                  processPost_fst_coherent fetch p c₂ h₂]
              have hco₁ := processPost_coherent fetch p c₁ h₁
              have hco₂ := processPost_coherent fetch p c₂ h₂
              cases hpc : (processPost fetch p c₂).1 with
              | some r0 =>
                rw [hfst.trans hpc]
                exact ih (posts ++ [r0]) _ _ _ sk hco₁ hco₂
              | none =>
                rw [hfst.trans hpc]
                exact ih posts _ _ _ sk hco₁ hco₂

/-! ### Shortcode sets of merged results -/

/-- The set of shortcodes of a record list. -/
def scodes (l : List ProcessedPost) : Finset String :=
  (l.map (fun r => r.shortcode)).toFinset

theorem scodes_nil : scodes [] = ∅ := rfl

theorem scodes_cons (p : ProcessedPost) (l : List ProcessedPost) :
    scodes (p :: l) = insert p.shortcode (scodes l) := by
  simp [scodes]

theorem scodes_append (l₁ l₂ : List ProcessedPost) :
    scodes (l₁ ++ l₂) = scodes l₁ ∪ scodes l₂ := by
  simp [scodes]

theorem scodes_mergePosts :
    ∀ (ps merged : List ProcessedPost),
      scodes (mergePosts merged ps) = scodes merged ∪ scodes ps := by
  intro ps
  induction ps with
  | nil => intro merged; rw [mergePosts_nil, scodes_nil, Finset.union_empty]
  | cons p ps ih =>
    intro merged
    rw [mergePosts_cons, ih, scodes_cons, Finset.union_insert]
    by_cases hex : ∃ q ∈ merged, q.shortcode = p.shortcode
    · rw [if_pos hex]
      obtain ⟨q, hq, hqs⟩ := hex
      have hp : p.shortcode ∈ scodes merged := by
        simp only [scodes, List.mem_toFinset, List.mem_map]
        exact ⟨q, hq, hqs⟩
      rw [Finset.insert_eq_self.mpr (Finset.mem_union_left _ hp)]
    · rw [if_neg hex, scodes_append]
      have hone : scodes [p] = {p.shortcode} := by simp [scodes]
      rw [hone]
      apply Finset.ext
      intro s
      simp only [Finset.mem_union, Finset.mem_insert, Finset.mem_singleton]
      tauto

theorem length_eq_card_scodes (l : List ProcessedPost)
    (h : (l.map (fun r => r.shortcode)).Nodup) : l.length = (scodes l).card := by
  unfold scodes
  rw [List.toFinset_card_of_nodup h, List.length_map]

/-- `crawl_multi_and` in the no-truncation regime: when the merged dict is
within capacity, the saved list is the merged dict's values untruncated. -/
theorem crawlMultiAnd_char (fetch : Fetcher) (feeds : String → List Post)
    (hashtags : List String) (cfg : CrawlConfig)
    (h2 : ¬ hashtags.length < 2)
    (hlen : (multiGo fetch feeds ((hashtags.map strLower).toFinset) cfg
      hashtags [] []).1.length ≤ cfg.maxPosts) :
    crawlMultiAnd fetch feeds hashtags cfg =
      if (multiGo fetch feeds ((hashtags.map strLower).toFinset) cfg
          hashtags [] []).1.length < cfg.minPosts
      then .ok none
      else .ok (some (andFilename cfg hashtags,
        (multiGo fetch feeds ((hashtags.map strLower).toFinset) cfg
          hashtags [] []).1)) := by
  unfold crawlMultiAnd
  rw [if_neg h2]
  show (if ((multiGo fetch feeds ((hashtags.map strLower).toFinset) cfg
        hashtags [] []).1.take cfg.maxPosts).length < cfg.minPosts
      then Except.ok none
      else Except.ok (some (andFilename cfg hashtags,
        (multiGo fetch feeds ((hashtags.map strLower).toFinset) cfg
          hashtags [] []).1.take cfg.maxPosts))) = _
  rw [List.take_of_length_le hlen]

theorem multiShortcodes_char (fetch : Fetcher) (feeds : String → List Post)
    (hashtags : List String) (cfg : CrawlConfig)
    (h2 : ¬ hashtags.length < 2)
    (hlen : (multiGo fetch feeds ((hashtags.map strLower).toFinset) cfg
      hashtags [] []).1.length ≤ cfg.maxPosts) :
    multiShortcodes fetch feeds hashtags cfg =
      if (multiGo fetch feeds ((hashtags.map strLower).toFinset) cfg
          hashtags [] []).1.length < cfg.minPosts
      then none
      else some (scodes (multiGo fetch feeds ((hashtags.map strLower).toFinset) cfg
        hashtags [] []).1) := by
  unfold multiShortcodes
  rw [crawlMultiAnd_char fetch feeds hashtags cfg h2 hlen]
  by_cases hmin : (multiGo fetch feeds ((hashtags.map strLower).toFinset) cfg
      hashtags [] []).1.length < cfg.minPosts
  · rw [if_pos hmin, if_pos hmin]
  · rw [if_neg hmin, if_neg hmin]
    rfl

/-- Running the intersection loop over exactly two hashtags whose combined
qualifying shortcode set fits within capacity yields precisely that union,
with one record per shortcode. -/
theorem multiGo_two (fetch : Fetcher) (feeds : String → List Post)
    (T : Finset String) (cfg : CrawlConfig) (X Y : String)
    (hcard : (scodes (collectPosts fetch cfg (some T) (feeds X) []).1 ∪
        scodes (collectPosts fetch cfg (some T) (feeds Y) []).1).card ≤ cfg.maxPosts) :
    scodes (multiGo fetch feeds T cfg [X, Y] [] []).1 =
      scodes (collectPosts fetch cfg (some T) (feeds X) []).1 ∪
        scodes (collectPosts fetch cfg (some T) (feeds Y) []).1
    ∧ (multiGo fetch feeds T cfg [X, Y] [] []).1.length =
      (scodes (collectPosts fetch cfg (some T) (feeds X) []).1 ∪
        scodes (collectPosts fetch cfg (some T) (feeds Y) []).1).card := by
  have hndM1 : ((mergePosts [] (collectPosts fetch cfg (some T) (feeds X) []).1).map
      (fun r => r.shortcode)).Nodup := mergePosts_nodup _ [] (by simp)
  have hsetM1 : scodes (mergePosts [] (collectPosts fetch cfg (some T) (feeds X) []).1) =
      scodes (collectPosts fetch cfg (some T) (feeds X) []).1 := by
    rw [scodes_mergePosts, scodes_nil, Finset.empty_union]
  have hlenM1 : (mergePosts [] (collectPosts fetch cfg (some T) (feeds X) []).1).length =
      (scodes (collectPosts fetch cfg (some T) (feeds X) []).1).card := by
    rw [length_eq_card_scodes _ hndM1, hsetM1]
  rw [multiGo_cons]
  by_cases hbrk : cfg.maxPosts ≤
      (mergePosts [] (collectPosts fetch cfg (some T) (feeds X) []).1).length
  · rw [if_pos hbrk]
    have hmax : cfg.maxPosts ≤
        (scodes (collectPosts fetch cfg (some T) (feeds X) []).1).card :=
      hlenM1 ▸ hbrk
    have hble : (scodes (collectPosts fetch cfg (some T) (feeds X) []).1 ∪
        scodes (collectPosts fetch cfg (some T) (feeds Y) []).1).card ≤
        (scodes (collectPosts fetch cfg (some T) (feeds X) []).1).card :=
      hcard.trans hmax
    have hEq : scodes (collectPosts fetch cfg (some T) (feeds X) []).1 =
        scodes (collectPosts fetch cfg (some T) (feeds X) []).1 ∪
          scodes (collectPosts fetch cfg (some T) (feeds Y) []).1 :=
      Finset.eq_of_subset_of_card_le Finset.subset_union_left hble
    exact ⟨hsetM1.trans hEq, by rw [hlenM1]; exact congrArg Finset.card hEq⟩
  · rw [if_neg hbrk]
    have hcoh1 : Coherent fetch (collectPosts fetch cfg (some T) (feeds X) []).2.1 :=
      collectGo_coherent fetch cfg (some T) (feeds X) [] [] [] 0 (coherent_nil fetch)
    have hP2 : (collectPosts fetch cfg (some T) (feeds Y)
        ((collectPosts fetch cfg (some T) (feeds X) []).2.1)).1 =
        (collectPosts fetch cfg (some T) (feeds Y) []).1 :=
      collectGo_fst_coherent fetch cfg (some T) (feeds Y) [] []
        ((collectPosts fetch cfg (some T) (feeds X) []).2.1) [] 0 hcoh1
        (coherent_nil fetch)
    rw [multiGo_cons, hP2]
    have hndM2 : ((mergePosts
        (mergePosts [] (collectPosts fetch cfg (some T) (feeds X) []).1)
        (collectPosts fetch cfg (some T) (feeds Y) []).1).map
        (fun r => r.shortcode)).Nodup := mergePosts_nodup _ _ hndM1
    have hsetM2 : scodes (mergePosts
        (mergePosts [] (collectPosts fetch cfg (some T) (feeds X) []).1)
        (collectPosts fetch cfg (some T) (feeds Y) []).1) =
        scodes (collectPosts fetch cfg (some T) (feeds X) []).1 ∪
          scodes (collectPosts fetch cfg (some T) (feeds Y) []).1 := by
      rw [scodes_mergePosts, hsetM1]
    have hlenM2 : (mergePosts
        (mergePosts [] (collectPosts fetch cfg (some T) (feeds X) []).1)
        (collectPosts fetch cfg (some T) (feeds Y) []).1).length =
        (scodes (collectPosts fetch cfg (some T) (feeds X) []).1 ∪
          scodes (collectPosts fetch cfg (some T) (feeds Y) []).1).card := by
      rw [length_eq_card_scodes _ hndM2, hsetM2]
    by_cases hbrk2 : cfg.maxPosts ≤ (mergePosts
        (mergePosts [] (collectPosts fetch cfg (some T) (feeds X) []).1)
        (collectPosts fetch cfg (some T) (feeds Y) []).1).length
    · rw [if_pos hbrk2]
      exact ⟨hsetM2, hlenM2⟩
    · rw [if_neg hbrk2, multiGo_nil]
      exact ⟨hsetM2, hlenM2⟩

/-- The lowercased required tag set of a two-hashtag search does not
depend on the order of the two hashtags (`frozenset` semantics). -/
theorem toFinset_swap (A B : String) :
    ([B, A].map strLower).toFinset = ([A, B].map strLower).toFinset := by
  apply Finset.ext
  intro s
  simp [or_comm]

/-- C8 (amended): when the combined qualifying shortcode set of the two
per-feed collections fits within `max_posts` — so no capacity break or
truncation occurs — the intersection search over `[A, B]` and `[B, A]`
returns the same set of shortcodes (and the same sufficiency verdict). -/
theorem C8_order_independence (fetch : Fetcher) (feeds : String → List Post)
    (cfg : CrawlConfig) (A B : String)
    (hcard : (scodes (collectPosts fetch cfg
        (some (([A, B].map strLower).toFinset)) (feeds A) []).1 ∪
      scodes (collectPosts fetch cfg
        (some (([A, B].map strLower).toFinset)) (feeds B) []).1).card ≤ cfg.maxPosts) :
    multiShortcodes fetch feeds [A, B] cfg = multiShortcodes fetch feeds [B, A] cfg := by
  obtain ⟨hset1, hlen1⟩ :=
    multiGo_two fetch feeds (([A, B].map strLower).toFinset) cfg A B hcard
  have hcard' : (scodes (collectPosts fetch cfg
      (some (([A, B].map strLower).toFinset)) (feeds B) []).1 ∪
    scodes (collectPosts fetch cfg
      (some (([A, B].map strLower).toFinset)) (feeds A) []).1).card ≤ cfg.maxPosts := by
    rwa [Finset.union_comm]
  obtain ⟨hset2, hlen2⟩ :=
    multiGo_two fetch feeds (([A, B].map strLower).toFinset) cfg B A hcard'
  have h2a : ¬ ([A, B] : List String).length < 2 := by simp
  have h2b : ¬ ([B, A] : List String).length < 2 := by simp
  have hlen1' : (multiGo fetch feeds (([A, B].map strLower).toFinset) cfg
      [A, B] [] []).1.length ≤ cfg.maxPosts := by
    rw [hlen1]
    exact hcard
  have hlen2' : (multiGo fetch feeds (([B, A].map strLower).toFinset) cfg
      [B, A] [] []).1.length ≤ cfg.maxPosts := by
    rw [toFinset_swap, hlen2]
    exact hcard'
  rw [multiShortcodes_char fetch feeds [A, B] cfg h2a hlen1',
    multiShortcodes_char fetch feeds [B, A] cfg h2b hlen2',
    toFinset_swap A B, hlen1, hlen2,
    Finset.union_comm (scodes (collectPosts fetch cfg
      (some (([A, B].map strLower).toFinset)) (feeds B) []).1)]
  by_cases hmin : (scodes (collectPosts fetch cfg
      (some (([A, B].map strLower).toFinset)) (feeds A) []).1 ∪
    scodes (collectPosts fetch cfg
      (some (([A, B].map strLower).toFinset)) (feeds B) []).1).card < cfg.minPosts
  · rw [if_pos hmin, if_pos hmin]
  · rw [if_neg hmin, if_neg hmin]
    refine congrArg some (hset1.trans ?_)
    rw [hset2, Finset.union_comm]

/-- Feeds for the order-dependence counterexample: hashtag `a`'s feed
holds only `pImg1`, every other feed only `pImg2` (both qualify). -/
def feedsAB : String → List Post := fun h => if h = "a" then [pImg1] else [pImg2]

/-- A capacity-2 configuration under which both witness posts fit. -/
def cfgW : CrawlConfig := { outputDir := "out", minPosts := 1, maxPosts := 2 }

/-- Witness for C8: with capacity 2 the union `{s1, s2}` fits, and the two
orders return the same shortcode set. -/
theorem C8_order_independence_witness :
    ((scodes (collectPosts fetch0 cfgW
        (some ((["a", "b"].map strLower).toFinset)) (feedsAB "a") []).1 ∪
      scodes (collectPosts fetch0 cfgW
        (some ((["a", "b"].map strLower).toFinset)) (feedsAB "b") []).1).card ≤ cfgW.maxPosts)
    ∧ multiShortcodes fetch0 feedsAB ["a", "b"] cfgW =
        multiShortcodes fetch0 feedsAB ["b", "a"] cfgW :=
  ⟨by decide, C8_order_independence fetch0 feedsAB cfgW "a" "b" (by decide)⟩

/-- Counterexample to C8 as stated: with `max_posts = 1` the first-queried
feed fills the capacity, so `["a", "b"]` returns shortcode set `{s1}` while
`["b", "a"]` returns `{s2}` — the merge result is order-dependent once
truncation kicks in. -/
theorem C8_counterexample :
    multiShortcodes fetch0 feedsAB ["a", "b"] cfg1 ≠
      multiShortcodes fetch0 feedsAB ["b", "a"] cfg1 := by
  decide

end InstagramCrawler
